import Mathlib

/-!
# B-spline evaluation (`plugins/geometry/modules/b_spline/b_spline.cxx`)

A shallow embedding of the `b_spline` filter: knot-vector construction, the
Cox-de Boor recursion `basis_function`, `compute_point`, `derive`, the uniform
sampling loop with its frame of tangent, binormal and normal, and the closest-point
search (initial guess, Newton iteration and quadratic factor for degree 2,
subdivision for higher degrees, selection of the smallest distance).

Modelling conventions.

* `double` values are elements of an arbitrary linearly ordered field `K`
  (exact arithmetic).  Every definition is computable; instantiating `K` with
  `ℚ` evaluates the code on concrete inputs, instantiating it with `ℝ` gives the
  statements about real parameters.
* The square root behind `norm()`, `normalized()` and `sqrtf` is a parameter
  `sqrt : K → K`; concrete evaluations over `ℚ` use `Rat.sqrt` at squares of rationals.
* Quotients whose divisor the source protects (`basis_function`) or that is shown to be
  non-zero (`delta`, and `derive` wherever its result is used) are field divisions.
  The Newton step of the degree-2 search divides without protection; it is modelled
  as a partial function.
* `std::size_t` values are natural numbers, `int` parameters are integers.
* A knot range handed over as an iterator is a pair of the underlying vector and
  the offset `first` of the iterator into it.
* `Eigen::Vector3d` is the triple `K × K × K` with its componentwise operations.
-/

namespace BSpline

variable {K : Type} [LinearOrderedField K]

/-! ## Data model -/

/-- The type `Eigen::Vector3d`: three coordinates `[0]`, `[1]`, `[2]`. -/
abbrev Vector3d (K : Type) := K × K × K

/-- Modelled from the spec: `access_at(it, index)` is declared in `b_spline.h`,
which is not part of the sources at hand.  It reads the entry `index` positions
after the iterator `it`; the iterator is the pair of the underlying knot vector
and its offset `first`.  A read outside the vector (undefined in C++) yields
`0` here. -/
def access_at (knots : List K) (first : ℕ) (index : ℕ) : K :=
  knots.getD (first + index) 0

/-- The call `std::iota(first, last, 0)` on positions `first .. last-1` of `v`:
the entries become `0, 1, 2, ...`. -/
def iota (v : List K) (first last : ℕ) : List K :=
  (List.range (last - first)).foldl (fun w k => w.set (first + k) (k : K)) v

/-- The loop of `RequestData` that sets the first and the last `degree` knots
(lines 113-117). -/
def clamp_ends (v : List K) (num_de_boor_points degree : ℕ) : List K :=
  (List.range degree).foldl
    (fun w i => (w.set i 0).set (w.length - 1 - i) ((num_de_boor_points - degree : ℕ) : K)) v

/-- Knot vector construction of `RequestData` (lines 104-124). -/
def knot_vector (num_de_boor_points degree : ℕ) (hit_endpoints : Bool) : List K :=
  let v : List K := List.replicate (num_de_boor_points + degree + 1) 0
  if hit_endpoints then
    iota (clamp_ends v num_de_boor_points degree) (0 + degree) (v.length - degree)
  else
    iota v 0 v.length

/-- The Cox-de Boor recursion `b_spline::basis_function` (lines 483-502). -/
def basis_function (knots : List K) (first : ℕ) (de_boor_index : ℕ) : ℕ → K → K
  | 0, u =>
      if access_at knots first de_boor_index ≤ u ∧ u < access_at knots first (de_boor_index + 1)
      then 1 else 0
  | degree + 1, u =>
      let Ni := basis_function knots first de_boor_index degree u
      let Nip1 := basis_function knots first (de_boor_index + 1) degree u
      let part_1 :=
        if access_at knots first (de_boor_index + (degree + 1))
            - access_at knots first de_boor_index = 0
        then 0
        else (u - access_at knots first de_boor_index) /
          (access_at knots first (de_boor_index + (degree + 1))
            - access_at knots first de_boor_index)
      let part_2 :=
        if access_at knots first (de_boor_index + (degree + 1) + 1)
            - access_at knots first (de_boor_index + 1) = 0
        then 0
        else (access_at knots first (de_boor_index + (degree + 1) + 1) - u) /
          (access_at knots first (de_boor_index + (degree + 1) + 1)
            - access_at knots first (de_boor_index + 1))
      part_1 * Ni + part_2 * Nip1

/-- The literal `0.0001f` of `compute_point`: the single-precision number nearest
to `0.0001`, that is `13743895 / 2^37`. -/
def epsilon : K := 13743895 / 137438953472

/-- The function `b_spline::compute_point` (lines 460-481). -/
def compute_point (de_boor_points : List (Vector3d K)) (knots : List K) (first : ℕ)
    (degree : ℕ) (arc_parameter : K) : Vector3d K :=
  let u :=
    if arc_parameter ≥ access_at knots first de_boor_points.length
    then access_at knots first de_boor_points.length - epsilon
    else arc_parameter
  (List.range de_boor_points.length).foldl
    (fun point j =>
      let N := basis_function knots first j degree u
      (point.1 + N * (de_boor_points.getD j 0).1,
       point.2.1 + N * (de_boor_points.getD j 0).2.1,
       point.2.2 + N * (de_boor_points.getD j 0).2.2))
    (0, 0, 0)

/-- The function `b_spline::derive` (lines 504-516).  The result has
`de_boor_points.size() - 1` entries; the subtraction is the truncated one, the
function is only called on non-empty point lists. -/
def derive (de_boor_points : List (Vector3d K)) (knots : List K) (first : ℕ)
    (degree : ℕ) : List (Vector3d K) :=
  (List.range (de_boor_points.length - 1)).map fun index =>
    ((degree : K) /
        (access_at knots first (index + degree + 1) - access_at knots first (index + 1))) •
      (de_boor_points.getD (index + 1) 0 - de_boor_points.getD index 0)

/-! ### The part of Eigen used by the filter -/

/-- Scalar product `a.dot(b)`. -/
def dot (a b : Vector3d K) : K :=
  a.1 * b.1 + a.2.1 * b.2.1 + a.2.2 * b.2.2

/-- Vector product `a.cross(b)`. -/
def cross (a b : Vector3d K) : Vector3d K :=
  (a.2.1 * b.2.2 - a.2.2 * b.2.1, a.2.2 * b.1 - a.1 * b.2.2, a.1 * b.2.1 - a.2.1 * b.1)

/-- The Euclidean length `a.norm()`; the square root is a parameter. -/
def norm (sqrt : K → K) (a : Vector3d K) : K :=
  sqrt (dot a a)

/-- The vector `a.normalized()`: `a` divided by its length, and `a` itself when
its squared length is not positive. -/
def normalized (sqrt : K → K) (a : Vector3d K) : Vector3d K :=
  if dot a a > 0 then (sqrt (dot a a))⁻¹ • a else a

/-! ### The degree-2 closed form (lines 198-234) -/

/-- The constant `alpha` of the degree-2 branch at segment `index`. -/
def alpha (knots : List K) (index : ℕ) : K :=
  knots.getD (index + 2) 0 * knots.getD (index + 1) 0
    - knots.getD (index + 2) 0 * knots.getD (index + 0) 0
    - knots.getD (index + 1) 0 * knots.getD (index + 0) 0
    + knots.getD (index + 0) 0 * knots.getD (index + 0) 0

/-- The constant `gamma` of the degree-2 branch at segment `index`. -/
def gamma (knots : List K) (index : ℕ) : K :=
  knots.getD (index + 1) 0 * knots.getD (index + 1) 0
    - knots.getD (index + 1) 0 * knots.getD (index + 0) 0
    - knots.getD (index + 1) 0 * knots.getD (index - 1) 0
    + knots.getD (index + 0) 0 * knots.getD (index - 1) 0

/-- The coefficient `a` of `a u^2 + b u + c`. -/
def quadratic_a (de_boor_points : List (Vector3d K)) (knots : List K) (index : ℕ) :
    Vector3d K :=
  (alpha knots index * gamma knots index)⁻¹ •
    (alpha knots index • de_boor_points.getD (index - 2) 0
      - alpha knots index • de_boor_points.getD (index - 1) 0
      - gamma knots index • de_boor_points.getD (index - 1) 0
      + gamma knots index • de_boor_points.getD (index - 0) 0)

/-- The coefficient `b` of `a u^2 + b u + c`. -/
def quadratic_b (de_boor_points : List (Vector3d K)) (knots : List K) (index : ℕ) :
    Vector3d K :=
  (alpha knots index * gamma knots index)⁻¹ •
    ((-2 * alpha knots index * knots.getD (index + 1) 0) • de_boor_points.getD (index - 2) 0
      + (alpha knots index * knots.getD (index + 1) 0) • de_boor_points.getD (index - 1) 0
      + (alpha knots index * knots.getD (index - 1) 0) • de_boor_points.getD (index - 1) 0
      + (gamma knots index * knots.getD (index + 2) 0) • de_boor_points.getD (index - 1) 0
      + (gamma knots index * knots.getD (index + 0) 0) • de_boor_points.getD (index - 1) 0
      - (2 * gamma knots index * knots.getD (index + 0) 0) • de_boor_points.getD (index - 0) 0)

/-- The coefficient `c` of `a u^2 + b u + c`. -/
def quadratic_c (de_boor_points : List (Vector3d K)) (knots : List K) (index : ℕ) :
    Vector3d K :=
  (alpha knots index * gamma knots index)⁻¹ •
    ((alpha knots index * knots.getD (index + 1) 0 * knots.getD (index + 1) 0) •
        de_boor_points.getD (index - 2) 0
      - (alpha knots index * knots.getD (index + 1) 0 * knots.getD (index - 1) 0) •
        de_boor_points.getD (index - 1) 0
      - (gamma knots index * knots.getD (index + 2) 0 * knots.getD (index + 0) 0) •
        de_boor_points.getD (index - 1) 0
      + (gamma knots index * knots.getD (index + 0) 0 * knots.getD (index + 0) 0) •
        de_boor_points.getD (index - 0) 0)

/-- The polynomial `u * u * a + u * b + c` whose distance to the query point the
degree-2 branch evaluates (lines 303-309). -/
def quadratic_point (de_boor_points : List (Vector3d K)) (knots : List K) (index : ℕ)
    (u : K) : Vector3d K :=
  (u * u) • quadratic_a de_boor_points knots index
    + u • quadratic_b de_boor_points knots index
    + quadratic_c de_boor_points knots index

/-! ### The filter -/

/-- The parameters of the filter object (`this->Degree`, `this->NumberOfPoints`,
`this->HitEndpoints`), all of type `int`.  Sums such as `Degree + 1` are taken in
the integers: the model covers the parameter values for which the `int`
arithmetic of the source is defined. -/
structure b_spline where
  Degree : Int
  NumberOfPoints : Int
  HitEndpoints : Int
deriving DecidableEq

/-- What `RequestData` stores in its output `vtkPolyData`: the sampled points,
the array "Parametric Position", the arrays "Tangent", "Binormal" and "Normal"
(present for degree above 2 only) and the index array of the single line cell. -/
structure PolyData (K : Type) where
  points : List (Vector3d K)
  parametric_position : List K
  tangent : Option (List (Vector3d K))
  binormal : Option (List (Vector3d K))
  normal : Option (List (Vector3d K))
  lines : List ℕ

/-- The arc parameter of output point `i` in the sampling loop (lines 133-146). -/
def arc_position (knots : List K) (degree num_de_boor_points num_output_points i : ℕ) : K :=
  let u_begin := knots.getD degree 0
  let u_end := knots.getD num_de_boor_points 0
  let u_step := (u_end - u_begin) / ((num_output_points - 1 : ℕ) : K)
  u_begin + (i : K) * u_step

/-- The function `b_spline::RequestData` (lines 59-458) as a function of the filter
parameters and the de Boor points of input port 0.  The result is the returned
`int` together with the content written to the output data object (`none` when
the output is left untouched).  The closest-point search of lines 159-384 only
writes to the console and is not part of the result. -/
def RequestData (sqrt : K → K) (self : b_spline) (input : List (Vector3d K)) :
    Int × Option (PolyData K) :=
  if self.Degree < 1 then (0, none)
  else if self.NumberOfPoints < self.Degree + 1 then (0, none)
  else if (input.length : Int) < self.Degree + 1 then (0, none)
  else
    let degree := self.Degree.toNat
    let hit_endpoints := decide (self.HitEndpoints ≠ 0)
    let num_output_points := self.NumberOfPoints.toNat
    let de_boor_points := input
    let num_de_boor_points := de_boor_points.length
    let knots : List K := knot_vector num_de_boor_points degree hit_endpoints
    let de_boor_points_first_derivative := derive de_boor_points knots 0 degree
    let de_boor_points_second_derivative :=
      derive de_boor_points_first_derivative knots 1 (degree - 1)
    let us := (List.range num_output_points).map
      (arc_position knots degree num_de_boor_points num_output_points)
    let points := us.map (compute_point de_boor_points knots 0 degree)
    let tangent := us.map fun u =>
      normalized sqrt (compute_point de_boor_points_first_derivative knots 1 (degree - 1) u)
    let binormal := us.map fun u =>
      normalized sqrt
        (cross
          (normalized sqrt
            (compute_point de_boor_points_first_derivative knots 1 (degree - 1) u))
          (compute_point de_boor_points_second_derivative knots 2 (degree - 2) u))
    let normal := (List.zip tangent binormal).map fun tb => cross tb.1 tb.2
    (1, some
      { points := points
        parametric_position := us
        tangent := if degree > 2 then some tangent else none
        binormal := if degree > 2 then some binormal else none
        normal := if degree > 2 then some normal else none
        lines := points.length :: List.range points.length })

/-! ### The closest-point search (lines 165-383)

The search only writes its result to the console.  The degree-2 branch contains the
one division of the filter that is not protected against a zero divisor, the Newton
step `u -= first_derivative / second_derivative`.  Exact arithmetic has no value for
such a quotient (IEEE arithmetic yields an infinity or NaN), so the Newton iteration
is a partial function here: `none` means that a Newton step divided by zero. -/

/-- The literal `0.0001` of the subdivision search, the double nearest to `0.0001`,
that is `7378697629483821 / 2^66`. -/
def good_match_tolerance : K := 7378697629483821 / 73786976294838206464

/-- The vector `distances` after the `std::transform` call (lines 175-188): one pair
(parameter, distance) for each of the `num_de_boor_points - degree` knots
`knot_vector[degree], ..., knot_vector[num_de_boor_points - 1]`. -/
def initial_guess (sqrt : K → K) (de_boor_points : List (Vector3d K)) (knots : List K)
    (degree : ℕ) (point : Vector3d K) : List (K × K) :=
  let delta := knots.getD (degree + 1) 0 - knots.getD degree 0
  (List.range (de_boor_points.length - degree)).map fun s =>
    let u := knots.getD (degree + s) 0
    (u + 1 / 2,
      norm sqrt (point - compute_point de_boor_points knots 0 degree (u + 1 / 2 * delta)))

/-- The segment index of a seed parameter (lines 199 and 332). -/
def segment_index [FloorRing K] (knots : List K) (degree : ℕ) (first : K) : ℕ :=
  let u_begin := knots.getD degree 0
  let delta := knots.getD (degree + 1) 0 - knots.getD degree 0
  degree + (Int.floor ((first - u_begin) / delta)).toNat

/-- One Newton step of lines 266-270 for the cubic `v' u^3 + w' u^2 + x' u + y'` with
derivative `v'' u^2 + w'' u + x''`; `none` when the divisor is zero. -/
def newton_step (v_dash w_dash x_dash y_dash v_dash_dash w_dash_dash x_dash_dash : K)
    (u : K) : Option K :=
  let first_derivative := v_dash * u ^ 3 + w_dash * u ^ 2 + x_dash * u + y_dash
  let second_derivative := v_dash_dash * u ^ 2 + w_dash_dash * u + x_dash_dash
  if second_derivative = 0 then none else some (u - first_derivative / second_derivative)

/-- The Newton loop of lines 263-271, run for the given number of iterations. -/
def newton (v_dash w_dash x_dash y_dash v_dash_dash w_dash_dash x_dash_dash : K) :
    ℕ → K → Option K
  | 0, u => some u
  | n + 1, u =>
      match newton_step v_dash w_dash x_dash y_dash v_dash_dash w_dash_dash x_dash_dash u with
      | none => none
      | some u_next =>
          newton v_dash w_dash x_dash y_dash v_dash_dash w_dash_dash x_dash_dash n u_next

/-- The statement `if (u < u_left || u > u_right) u = u_left;` of lines 290-292. -/
def clamp_to_segment (u_left u_right u : K) : K :=
  if u < u_left ∨ u > u_right then u_left else u

/-- The selection loops of lines 313-323 and of `std::min_element` with the comparator
of lines 177-180: start with the first pair and replace it by every later pair of
strictly smaller distance. -/
def pick_smallest (first : K × K) (rest : List (K × K)) : K × K :=
  rest.foldl (fun best candidate => if candidate.2 < best.2 then candidate else best) first

/-- The three roots `u`, `u_2`, `u_3` after the clamping of lines 290-292, given the
result `u` of the Newton loop (lines 273-292). -/
def quadratic_roots (sqrt : K → K) (v_dash w_dash x_dash delta u_left u_right u : K) :
    K × K × K :=
  let a_reduced := v_dash
  let b_reduced := w_dash + u * a_reduced
  let c_reduced := x_dash + u * b_reduced
  let discriminant := b_reduced * b_reduced - 4 * a_reduced * c_reduced
  let u_2 :=
    if |a_reduced| > delta ∧ discriminant > 0
    then (-b_reduced + sqrt discriminant) / (2 * a_reduced) else u
  let u_3 :=
    if |a_reduced| > delta ∧ discriminant > 0
    then (-b_reduced - sqrt discriminant) / (2 * a_reduced) else u
  (clamp_to_segment u_left u_right u, clamp_to_segment u_left u_right u_2,
    clamp_to_segment u_left u_right u_3)

/-- The five pairs (`us[i]`, `distances[i]`) of lines 295-309, given the result `u` of
the Newton loop. -/
def quadratic_candidates (sqrt : K → K) (a b c point : Vector3d K)
    (v_dash w_dash x_dash delta u_left u_right u : K) : List (K × K) :=
  let roots := quadratic_roots sqrt v_dash w_dash x_dash delta u_left u_right u
  [roots.1, roots.2.1, roots.2.2, u_left, u_right].map
    fun t => (t, norm sqrt (point - ((t * t) • a + t • b + c)))

/-- The body of the degree-2 loop (lines 198-323) for one entry `seed` of `distances`:
the new value of the entry, `none` when a Newton step divides by zero. -/
def refine_quadratic [FloorRing K] (sqrt : K → K) (de_boor_points : List (Vector3d K))
    (knots : List K) (degree : ℕ) (point : Vector3d K) (seed : K × K) : Option (K × K) :=
  let delta := knots.getD (degree + 1) 0 - knots.getD degree 0
  let index := segment_index knots degree seed.1
  let a := quadratic_a de_boor_points knots index
  let b := quadratic_b de_boor_points knots index
  let c := quadratic_c de_boor_points knots index
  let c_dist := c - point
  let v := dot a a
  let w := 2 * dot a b
  let x := 2 * dot a c_dist + dot b b
  let y := 2 * dot b c_dist
  let u_left := seed.1 - 1 / 2 * delta
  let u_right := seed.1 + 1 / 2 * delta
  match newton (4 * v) (3 * w) (2 * x) (1 * y) (12 * v) (6 * w) (2 * x) 10 seed.1 with
  | none => none
  | some u =>
      match quadratic_candidates sqrt a b c point (4 * v) (3 * w) (2 * x) delta
          u_left u_right u with
      | [] => none
      | first :: rest => some (pick_smallest first rest)

/-- The variables `u`, `u_left`, `u_right` and `good_match` of the subdivision loop
(lines 334-365). -/
structure Subdivision (K : Type) where
  u : K
  u_left : K
  u_right : K
  good_match : Bool

/-- One pass through the body of the subdivision loop (lines 343-364). -/
def subdivision_step (de_boor_points de_boor_points_first_derivative : List (Vector3d K))
    (knots : List K) (degree : ℕ) (point : Vector3d K) (s : Subdivision K) :
    Subdivision K :=
  let position := compute_point de_boor_points knots 0 degree s.u
  let tangent := compute_point de_boor_points_first_derivative knots 1 (degree - 1) s.u
  let direction := dot tangent (point - position)
  let good_match := if |direction| < good_match_tolerance then true else s.good_match
  let u_left :=
    if |direction| < good_match_tolerance then s.u_left
    else if direction > 0 then s.u else s.u_left
  let u_right :=
    if |direction| < good_match_tolerance then s.u_right
    else if direction > 0 then s.u_right else s.u
  { u := 1 / 2 * (u_left + u_right), u_left := u_left, u_right := u_right,
    good_match := good_match }

/-- The loop `for (i = 0; i < 10 && !good_match; ++i)` of line 341 with the given
number of remaining iterations. -/
def subdivision_loop (de_boor_points de_boor_points_first_derivative : List (Vector3d K))
    (knots : List K) (degree : ℕ) (point : Vector3d K) : ℕ → Subdivision K → Subdivision K
  | 0, s => s
  | n + 1, s =>
      if s.good_match then s
      else subdivision_loop de_boor_points de_boor_points_first_derivative knots degree point n
        (subdivision_step de_boor_points de_boor_points_first_derivative knots degree point s)

/-- The body of the loop for degree above 2 (lines 331-368) for one entry `seed` of
`distances`: the new value of the entry.  The index of line 332 is not used by the
source. -/
def refine_subdivision (sqrt : K → K)
    (de_boor_points de_boor_points_first_derivative : List (Vector3d K))
    (knots : List K) (degree : ℕ) (point : Vector3d K) (seed : K × K) : K × K :=
  let delta := knots.getD (degree + 1) 0 - knots.getD degree 0
  let s := subdivision_loop de_boor_points de_boor_points_first_derivative knots degree point
    10 { u := seed.1, u_left := seed.1 - 1 / 2 * delta, u_right := seed.1 + 1 / 2 * delta,
         good_match := false }
  (s.u, norm sqrt (point - compute_point de_boor_points knots 0 degree s.u))

/-- All entries of a list of optional values, `none` when one of them is missing. -/
def collect {α : Type} : List (Option α) → Option (List α)
  | [] => some []
  | none :: _ => none
  | some x :: rest =>
      match collect rest with
      | none => none
      | some xs => some (x :: xs)

/-- The vector `distances` when line 372 is reached: the initial guess, refined by the
branch of the degree. -/
def final_candidates [FloorRing K] (sqrt : K → K) (de_boor_points : List (Vector3d K))
    (knots : List K) (degree : ℕ) (point : Vector3d K) : Option (List (K × K)) :=
  let distances := initial_guess sqrt de_boor_points knots degree point
  if degree = 2 then
    collect (distances.map (refine_quadratic sqrt de_boor_points knots degree point))
  else if degree > 2 then
    some (distances.map
      (refine_subdivision sqrt de_boor_points (derive de_boor_points knots 0 degree)
        knots degree point))
  else some distances

/-- The call `std::min_element(distances.begin(), distances.end(), comparator)`. -/
def min_element (distances : List (K × K)) : Option (K × K) :=
  match distances with
  | [] => none
  | first :: rest => some (pick_smallest first rest)

/-- The closest-point search of `RequestData` (lines 165-383) for valid parameters
(`degree ≥ 1`, at least `degree + 1` de Boor points) and the single point of input
port 1: the printed `nearest_arc`, `nearest_distance` and `position`; `none` when a
Newton step of the degree-2 branch divides by zero. -/
def closest_point [FloorRing K] (sqrt : K → K) (degree : ℕ) (hit_endpoints : Bool)
    (de_boor_points : List (Vector3d K)) (point : Vector3d K) :
    Option (K × K × Vector3d K) :=
  let knots : List K := knot_vector de_boor_points.length degree hit_endpoints
  match final_candidates sqrt de_boor_points knots degree point with
  | none => none
  | some distances =>
      match min_element distances with
      | none => none
      | some nearest =>
          some (nearest.1, nearest.2, compute_point de_boor_points knots 0 degree nearest.1)

/-! ### Knot reads -/

/-- The indices of the underlying knot vector that `basis_function` passes to
`access_at` (reads skipped by `&&` or repeated by `?:` are listed once each). -/
def basis_function_reads (first de_boor_index : ℕ) : ℕ → List ℕ
  | 0 => [first + de_boor_index, first + (de_boor_index + 1)]
  | degree + 1 =>
      basis_function_reads first de_boor_index degree
        ++ basis_function_reads first (de_boor_index + 1) degree
        ++ [first + (de_boor_index + (degree + 1)), first + de_boor_index,
            first + (de_boor_index + (degree + 1) + 1), first + (de_boor_index + 1)]

/-- The indices of the underlying knot vector read by `compute_point` for
`num_points` de Boor points: the read for the upper-bound clamp and the reads of the
basis functions. -/
def compute_point_reads (num_points first degree : ℕ) : List ℕ :=
  (first + num_points) ::
    (List.range num_points).flatMap fun j => basis_function_reads first j degree

/-! ### Auxiliary definitions of the proofs -/

/-- The closed form of the knots: `min (j - p) (N - p)` (truncated subtraction) in the
clamped case and `j` in the uniform case. -/
def knot_value (N p : ℕ) (hit : Bool) (j : ℕ) : ℕ :=
  if hit then min (j - p) (N - p) else j

/-- The knot sequence of the closed form, as a function of the index. -/
def knot_fn (N p : ℕ) (hit : Bool) : ℕ → K :=
  fun j => ((knot_value N p hit j : ℕ) : K)

/-- The knot vector in the words of the specification (section 4.1): with "hit
endpoints" the first `p` entries are `0`, the last `p` entries are `N - p` and the
entries between them are `0, 1, ..., N - p`; otherwise the `N + p + 1` entries are
`0, 1, 2, ...`. -/
def knot_vector_reference (N p : ℕ) (hit : Bool) : List K :=
  if hit then
    List.replicate p 0 ++ (List.range (N - p + 1)).map (fun k : ℕ => (k : K))
      ++ List.replicate p ((N - p : ℕ) : K)
  else
    (List.range (N + p + 1)).map (fun k : ℕ => (k : K))

/-- The Cox-de Boor recursion over a knot sequence `t : ℕ → K`, with the quotients
written as field divisions (a division by zero is zero). -/
def cox_de_boor (t : ℕ → K) (i : ℕ) : ℕ → K → K
  | 0, u => if t i ≤ u ∧ u < t (i + 1) then 1 else 0
  | d + 1, u =>
      (u - t i) / (t (i + (d + 1)) - t i) * cox_de_boor t i d u
        + (t (i + (d + 1) + 1) - u) / (t (i + (d + 1) + 1) - t (i + 1)) * cox_de_boor t (i + 1) d u

/-- The derivative of `cox_de_boor t i d` inside a knot interval. -/
def cox_de_boor_deriv (t : ℕ → K) (i : ℕ) : ℕ → K → K
  | 0, _ => 0
  | d + 1, u =>
      ((d + 1 : ℕ) : K) *
        (cox_de_boor t i d u / (t (i + (d + 1)) - t i)
          - cox_de_boor t (i + 1) d u / (t (i + (d + 1) + 1) - t (i + 1)))

/-- The value of the first-derivative curve at output point `i`, before it is
normalised to the tangent (line 153). -/
def sample_first_derivative (p M : ℕ) (hit : Bool) (input : List (Vector3d K)) (i : ℕ) :
    Vector3d K :=
  compute_point (derive input (knot_vector input.length p hit) 0 p)
    (knot_vector input.length p hit) 1 (p - 1)
    (arc_position (knot_vector input.length p hit) p input.length M i)

/-- The vector product of the tangent with the value of the second-derivative curve at
output point `i`, before it is normalised to the binormal (line 154). -/
def sample_binormal_direction (sqrt : K → K) (p M : ℕ) (hit : Bool)
    (input : List (Vector3d K)) (i : ℕ) : Vector3d K :=
  cross (normalized sqrt (sample_first_derivative p M hit input i))
    (compute_point
      (derive (derive input (knot_vector input.length p hit) 0 p)
        (knot_vector input.length p hit) 1 (p - 1))
      (knot_vector input.length p hit) 2 (p - 2)
      (arc_position (knot_vector input.length p hit) p input.length M i))

/-- The output written by `RequestData` for valid parameters. -/
def sampled_output (sqrt : K → K) (p M : ℕ) (hit : Bool) (input : List (Vector3d K)) :
    PolyData K :=
  let knots : List K := knot_vector input.length p hit
  let us := (List.range M).map (arc_position knots p input.length M)
  let first_derivative := derive input knots 0 p
  let second_derivative := derive first_derivative knots 1 (p - 1)
  let tangent := us.map fun u =>
    normalized sqrt (compute_point first_derivative knots 1 (p - 1) u)
  let binormal := us.map fun u =>
    normalized sqrt
      (cross (normalized sqrt (compute_point first_derivative knots 1 (p - 1) u))
        (compute_point second_derivative knots 2 (p - 2) u))
  { points := us.map (compute_point input knots 0 p)
    parametric_position := us
    tangent := if p > 2 then some tangent else none
    binormal := if p > 2 then some binormal else none
    normal := if p > 2 then some ((List.zip tangent binormal).map fun tb => cross tb.1 tb.2)
      else none
    lines := (us.map (compute_point input knots 0 p)).length
      :: List.range (us.map (compute_point input knots 0 p)).length }

/-- The variables of the subdivision loop before its first iteration (lines 334-339),
for the seed parameter `first`. -/
def subdivision_start (knots : List K) (degree : ℕ) (first : K) : Subdivision K :=
  { u := first
    u_left := first - 1 / 2 * (knots.getD (degree + 1) 0 - knots.getD degree 0)
    u_right := first + 1 / 2 * (knots.getD (degree + 1) 0 - knots.getD degree 0)
    good_match := false }

/-- The value `direction` of line 347 at the parameter `u`: the scalar product of the
tangent at `u` with the vector from the position at `u` to the query point. -/
def subdivision_direction (de_boor_points de_boor_points_first_derivative : List (Vector3d K))
    (knots : List K) (degree : ℕ) (point : Vector3d K) (u : K) : K :=
  dot (compute_point de_boor_points_first_derivative knots 1 (degree - 1) u)
    (point - compute_point de_boor_points knots 0 degree u)

/-- The variables of the subdivision loop of segment `s` (seed parameter
`knot[degree + s] + 0.5`) after `j` passes through the loop body, for the filter's knot
vector and first-derivative points. -/
def subdivision_state (p : ℕ) (hit : Bool) (input : List (Vector3d K)) (point : Vector3d K)
    (s j : ℕ) : Subdivision K :=
  (subdivision_step input (derive input (knot_vector input.length p hit) 0 p)
      (knot_vector input.length p hit) p point)^[j]
    (subdivision_start (knot_vector input.length p hit) p
      ((knot_vector input.length p hit : List K).getD (p + s) 0 + 1 / 2))

/-! ## The knot vector -/

section Knots

variable {K : Type} [LinearOrderedField K]

theorem iota_loop_length (v : List K) (first n : ℕ) :
    ((List.range n).foldl (fun w k => w.set (first + k) (k : K)) v).length = v.length := by
  induction n with
  | zero => simp
  | succ n ih => simp [List.range_succ, List.foldl_append, ih]

theorem iota_loop_getD (v : List K) (first n j : ℕ) :
    ((List.range n).foldl (fun w k => w.set (first + k) (k : K)) v).getD j 0 =
      if first ≤ j ∧ j < first + n ∧ j < v.length then ((j - first : ℕ) : K)
      else v.getD j 0 := by
  induction n with
  | zero =>
    have h0 : ¬ (first ≤ j ∧ j < first + 0 ∧ j < v.length) := by omega
    rw [if_neg h0]
    rfl
  | succ n ih =>
    rw [List.range_succ, List.foldl_append]
    simp only [List.foldl_cons, List.foldl_nil]
    rw [List.getD_eq_getElem?_getD, List.getElem?_set, iota_loop_length]
    by_cases hj : first + n = j
    · subst hj
      by_cases hl : first + n < v.length
      · simp [hl]
      · simp [hl, List.getD_eq_getElem?_getD]
        rw [List.getElem?_eq_none (by omega)]
        simp
    · rw [if_neg hj, ← List.getD_eq_getElem?_getD, ih]
      by_cases h1 : first ≤ j ∧ j < first + n ∧ j < v.length
      · have h2 : first ≤ j ∧ j < first + (n + 1) ∧ j < v.length := by omega
        rw [if_pos h1, if_pos h2]
      · have h2 : ¬ (first ≤ j ∧ j < first + (n + 1) ∧ j < v.length) := by omega
        rw [if_neg h1, if_neg h2]

theorem clamp_loop_length (v : List K) (c : K) (n : ℕ) :
    ((List.range n).foldl (fun w i => (w.set i 0).set (w.length - 1 - i) c) v).length
      = v.length := by
  induction n with
  | zero => simp
  | succ n ih => simp [List.range_succ, List.foldl_append, ih]

theorem clamp_loop_getD (v : List K) (c : K) (n j : ℕ) (hn : 2 * n ≤ v.length) :
    ((List.range n).foldl (fun w i => (w.set i 0).set (w.length - 1 - i) c) v).getD j 0 =
      if j < n then 0 else if v.length - n ≤ j ∧ j < v.length then c else v.getD j 0 := by
  induction n with
  | zero =>
    have h0 : ¬ (v.length - 0 ≤ j ∧ j < v.length) := by omega
    rw [if_neg (Nat.not_lt_zero j), if_neg h0]
    rfl
  | succ n ih =>
    have ih1 := ih (by omega)
    rw [List.range_succ, List.foldl_append]
    simp only [List.foldl_cons, List.foldl_nil]
    rw [List.getD_eq_getElem?_getD, List.getElem?_set, List.length_set, clamp_loop_length]
    by_cases hj : v.length - 1 - n = j
    · have h1 : ¬ j < n + 1 := by omega
      have h2 : v.length - (n + 1) ≤ j ∧ j < v.length := by omega
      rw [if_pos hj, if_pos (by omega), if_neg h1, if_pos h2]
      rfl
    · rw [if_neg hj, List.getElem?_set, clamp_loop_length]
      by_cases hj2 : n = j
      · have h1 : j < n + 1 := by omega
        rw [if_pos hj2, if_pos (by omega), if_pos h1]
        rfl
      · rw [if_neg hj2, ← List.getD_eq_getElem?_getD, ih1]
        split_ifs <;> first | rfl | (exfalso; omega)

theorem knot_vector_length (N p : ℕ) (hit : Bool) :
    (knot_vector N p hit : List K).length = N + p + 1 := by
  cases hit
  · simp only [knot_vector, iota, Bool.false_eq_true, if_false]
    rw [iota_loop_length, List.length_replicate]
  · simp only [knot_vector, iota, clamp_ends, if_true]
    rw [iota_loop_length, clamp_loop_length, List.length_replicate]

theorem knot_vector_getD (N p : ℕ) (hit : Bool) (hN : p + 1 ≤ N) (j : ℕ) (hj : j ≤ N + p) :
    (knot_vector N p hit : List K).getD j 0 = (knot_value N p hit j : K) := by
  cases hit
  · simp only [knot_vector, iota, knot_value, Bool.false_eq_true, if_false]
    rw [iota_loop_getD, if_pos (by simp; omega)]
    simp
  · simp only [knot_vector, iota, clamp_ends, knot_value, if_true, List.length_replicate]
    rw [iota_loop_getD, clamp_loop_length, List.length_replicate]
    by_cases h1 : 0 + p ≤ j ∧ j < 0 + p + (N + p + 1 - p - (0 + p)) ∧ j < N + p + 1
    · rw [if_pos h1]
      congr 1
      omega
    · rw [if_neg h1, clamp_loop_getD _ _ _ _ (by simp; omega), List.length_replicate]
      by_cases h2 : j < p
      · rw [if_pos h2]
        have : min (j - p) (N - p) = 0 := by omega
        simp [this]
      · rw [if_neg h2, if_pos (by omega)]
        congr 1
        omega

theorem knot_value_mono (N p : ℕ) (hit : Bool) : Monotone (knot_value N p hit) := by
  intro a b hab
  cases hit
  · simpa [knot_value] using hab
  · simp only [knot_value, if_true]
    omega

theorem knot_value_cast_mono (N p : ℕ) (hit : Bool) :
    Monotone (fun j => ((knot_value N p hit j : ℕ) : K)) :=
  fun _ _ hab => Nat.cast_le.mpr (knot_value_mono N p hit hab)

theorem knot_value_succ (N p : ℕ) (hit : Bool) (i : ℕ) (hi : p ≤ i) (hiN : i < N) :
    knot_value N p hit (i + 1) = knot_value N p hit i + 1 := by
  cases hit
  · simp [knot_value]
  · simp only [knot_value, if_true]
    omega

theorem knot_vector_reference_length (N p : ℕ) (hit : Bool) (hN : p + 1 ≤ N) :
    (knot_vector_reference N p hit : List K).length = N + p + 1 := by
  cases hit
  · simp [knot_vector_reference]
  · simp only [knot_vector_reference, if_true, List.length_append, List.length_replicate,
      List.length_map, List.length_range]
    omega

theorem knot_vector_reference_getD (N p : ℕ) (hit : Bool) (hN : p + 1 ≤ N) (j : ℕ)
    (hj : j ≤ N + p) :
    (knot_vector_reference N p hit : List K).getD j 0 = (knot_value N p hit j : K) := by
  cases hit
  · simp only [knot_vector_reference, knot_value, Bool.false_eq_true, if_false]
    rw [List.getD_eq_getElem?_getD, List.getElem?_map, List.getElem?_range (by omega)]
    rfl
  · simp only [knot_vector_reference, knot_value, if_true]
    by_cases h1 : j < p
    · rw [List.append_assoc, List.getD_append _ _ _ _ (by simpa using h1),
        List.getD_eq_getElem?_getD, List.getElem?_replicate, if_pos h1]
      have : min (j - p) (N - p) = 0 := by omega
      simp [this]
    · by_cases h2 : j ≤ N
      · rw [List.getD_append _ _ _ _ (by simp; omega),
          List.getD_append_right _ _ _ _ (by simpa using h1),
          List.getD_eq_getElem?_getD, List.getElem?_map, List.length_replicate,
          List.getElem?_range (by omega)]
        have : min (j - p) (N - p) = j - p := by omega
        simp [this]
      · rw [List.getD_append_right _ _ _ _ (by simp; omega),
          List.getD_eq_getElem?_getD, List.getElem?_replicate,
          if_pos (by simp; omega)]
        have : min (j - p) (N - p) = N - p := by omega
        simp [this]

theorem knot_vector_eq_reference (N p : ℕ) (hit : Bool) (hN : p + 1 ≤ N) :
    (knot_vector N p hit : List K) = knot_vector_reference N p hit := by
  apply List.ext_getElem
  · rw [knot_vector_length, knot_vector_reference_length N p hit hN]
  · intro j h1 h2
    rw [knot_vector_length] at h1
    rw [← List.getD_eq_getElem _ 0, ← List.getD_eq_getElem _ 0,
      knot_vector_getD N p hit hN j (by omega),
      knot_vector_reference_getD N p hit hN j (by omega)]

end Knots

/-! ## The basis functions -/

section Basis

variable {K : Type} [LinearOrderedField K]

theorem basis_function_eq (knots : List K) (first i d : ℕ) (u : K) :
    basis_function knots first i d u = cox_de_boor (fun k => knots.getD k 0) (first + i) d u := by
  induction d generalizing i with
  | zero => rfl
  | succ d ih =>
    simp only [basis_function, cox_de_boor, access_at, ih]
    have e1 : first + (i + (d + 1)) = first + i + (d + 1) := by omega
    have e2 : first + (i + (d + 1) + 1) = first + i + (d + 1) + 1 := by omega
    have e3 : first + (i + 1) = first + i + 1 := by omega
    rw [e1, e2, e3]
    congr 1
    · split_ifs with h
      · rw [h, div_zero]
      · rfl
    · split_ifs with h
      · rw [h, div_zero]
      · rfl

theorem cox_de_boor_congr (t s : ℕ → K) (i d : ℕ) (u : K)
    (h : ∀ k, i ≤ k → k ≤ i + d + 1 → t k = s k) :
    cox_de_boor t i d u = cox_de_boor s i d u := by
  induction d generalizing i with
  | zero =>
    simp only [cox_de_boor]
    rw [h i le_rfl (by omega), h (i + 1) (by omega) (by omega)]
  | succ d ih =>
    simp only [cox_de_boor]
    rw [ih i (fun k h1 h2 => h k h1 (by omega)),
      ih (i + 1) (fun k h1 h2 => h k (by omega) (by omega)),
      h i le_rfl (by omega), h (i + 1) (by omega) (by omega),
      h (i + (d + 1)) (by omega) (by omega), h (i + (d + 1) + 1) (by omega) (by omega)]

theorem cox_de_boor_zero_eq (t : ℕ → K) (ht : Monotone t) (i : ℕ) (u : K)
    (h1 : t i ≤ u) (h2 : u < t (i + 1)) (j : ℕ) :
    cox_de_boor t j 0 u = if j = i then 1 else 0 := by
  simp only [cox_de_boor]
  by_cases hj : j = i
  · subst hj
    rw [if_pos ⟨h1, h2⟩, if_pos rfl]
  · rw [if_neg hj]
    apply if_neg
    rintro ⟨h3, h4⟩
    rcases Nat.lt_or_gt_of_ne hj with h | h
    · have : t (j + 1) ≤ t i := ht (by omega)
      exact absurd (lt_of_lt_of_le h4 (this.trans h1)) (lt_irrefl _)
    · have : t (i + 1) ≤ t j := ht (by omega)
      exact absurd (lt_of_lt_of_le h2 (this.trans h3)) (lt_irrefl _)

theorem cox_de_boor_support (t : ℕ → K) (ht : Monotone t) (i : ℕ) (u : K)
    (h1 : t i ≤ u) (h2 : u < t (i + 1)) (j d : ℕ) (hj : j + d < i ∨ i < j) :
    cox_de_boor t j d u = 0 := by
  induction d generalizing j with
  | zero =>
    rw [cox_de_boor_zero_eq t ht i u h1 h2, if_neg (by omega)]
  | succ d ih =>
    simp only [cox_de_boor]
    rw [ih j (by omega), ih (j + 1) (by omega)]
    simp

theorem cox_de_boor_eq_zero_of_knots_eq (t : ℕ → K) (ht : Monotone t) (i : ℕ) (u : K)
    (h1 : t i ≤ u) (h2 : u < t (i + 1)) (j d : ℕ) (hj : t (j + d + 1) = t j) :
    cox_de_boor t j d u = 0 := by
  by_cases h : j + d < i ∨ i < j
  · exact cox_de_boor_support t ht i u h1 h2 j d h
  · exfalso
    have ha : t j ≤ t i := ht (by omega)
    have hb : t (i + 1) ≤ t (j + d + 1) := ht (by omega)
    have : t j < t (j + d + 1) := lt_of_le_of_lt (ha.trans h1) (lt_of_lt_of_le h2 hb)
    rw [hj] at this
    exact lt_irrefl _ this

theorem cox_de_boor_blend (t : ℕ → K) (ht : Monotone t) (i : ℕ) (u : K)
    (h1 : t i ≤ u) (h2 : u < t (i + 1)) (j d : ℕ) :
    (u - t (j + 1)) / (t (j + 1 + (d + 1)) - t (j + 1)) * cox_de_boor t (j + 1) d u
      + (t (j + (d + 1) + 1) - u) / (t (j + (d + 1) + 1) - t (j + 1)) * cox_de_boor t (j + 1) d u
      = cox_de_boor t (j + 1) d u := by
  have e : j + 1 + (d + 1) = j + (d + 1) + 1 := by omega
  rw [e]
  by_cases hden : t (j + (d + 1) + 1) - t (j + 1) = 0
  · have hz : cox_de_boor t (j + 1) d u = 0 := by
      apply cox_de_boor_eq_zero_of_knots_eq t ht i u h1 h2
      have e2 : j + 1 + d + 1 = j + (d + 1) + 1 := by omega
      rw [e2]
      exact sub_eq_zero.mp hden
    rw [hz]
    simp
  · field_simp
    ring

theorem cox_de_boor_sum (t : ℕ → K) (ht : Monotone t) (i : ℕ) (u : K)
    (h1 : t i ≤ u) (h2 : u < t (i + 1)) (d n : ℕ) (hd : d ≤ i) (hn : i < n) :
    ∑ j in Finset.range n, cox_de_boor t j d u = 1 := by
  induction d generalizing n with
  | zero =>
    simp only [cox_de_boor_zero_eq t ht i u h1 h2]
    rw [Finset.sum_ite_eq', if_pos (Finset.mem_range.mpr hn)]
  | succ d ih =>
    simp only [cox_de_boor]
    rw [Finset.sum_add_distrib]
    have hA := Finset.sum_range_succ
      (fun j => (u - t j) / (t (j + (d + 1)) - t j) * cox_de_boor t j d u) n
    have hB := Finset.sum_range_succ'
      (fun j => (u - t j) / (t (j + (d + 1)) - t j) * cox_de_boor t j d u) n
    have h0 : cox_de_boor t 0 d u = 0 := cox_de_boor_support t ht i u h1 h2 0 d (by omega)
    have hn0 : cox_de_boor t n d u = 0 := cox_de_boor_support t ht i u h1 h2 n d (by omega)
    simp only [h0, hn0, mul_zero, add_zero] at hA hB
    rw [← hA, hB, ← Finset.sum_add_distrib]
    simp only [cox_de_boor_blend t ht i u h1 h2]
    have hS := ih (n + 1) (by omega) (by omega)
    rw [Finset.sum_range_succ', h0, add_zero] at hS
    exact hS

theorem cox_de_boor_at_knot (t : ℕ → K) (ht : Monotone t) (i : ℕ) (h : t i < t (i + 1))
    (d : ℕ) (hd : d ≤ i) (he : t (i - d) = t i) (j : ℕ) :
    cox_de_boor t j d (t i) = if j = i - d then 1 else 0 := by
  induction d generalizing j with
  | zero => exact cox_de_boor_zero_eq t ht i (t i) le_rfl h j
  | succ d ih =>
    have he1 : t (i - d) = t i :=
      le_antisymm (ht (Nat.sub_le i d)) (he ▸ ht (by omega))
    simp only [cox_de_boor]
    rw [ih (by omega) he1 j, ih (by omega) he1 (j + 1)]
    by_cases h1 : j = i - (d + 1)
    · have e1 : j + (d + 1) + 1 = i + 1 := by omega
      have e2 : j + 1 = i - d := by omega
      have e3 : ¬ j = i - d := by omega
      rw [if_pos h1, if_neg e3, if_pos e2, e1, e2, he1, mul_zero, zero_add, mul_one]
      exact div_self (ne_of_gt (sub_pos.mpr h))
    · have e2 : ¬ j + 1 = i - d := by omega
      rw [if_neg h1, if_neg e2, mul_zero, add_zero]
      by_cases h2 : j = i - d
      · rw [if_pos h2, h2, he1, sub_self, zero_div, zero_mul]
      · rw [if_neg h2, mul_zero]

theorem exists_knot_interval (t : ℕ → K) (u : K) (a n : ℕ) (h1 : t a ≤ u)
    (h2 : u < t (a + n)) :
    ∃ i, a ≤ i ∧ i < a + n ∧ t i ≤ u ∧ u < t (i + 1) := by
  induction n with
  | zero => exact absurd (lt_of_le_of_lt h1 h2) (lt_irrefl _)
  | succ n ih =>
    by_cases h : u < t (a + n)
    · obtain ⟨i, hi1, hi2, hi3, hi4⟩ := ih h
      exact ⟨i, hi1, by omega, hi3, hi4⟩
    · exact ⟨a + n, by omega, by omega, not_lt.mp h, h2⟩

end Basis

/-! ## Curve evaluation -/

section Curve

variable {K : Type} [LinearOrderedField K]

theorem fold_eq_sum (P : List (Vector3d K)) (f : ℕ → K) (n : ℕ) :
    (List.range n).foldl
      (fun point j =>
        ((point.1 + f j * (P.getD j 0).1,
          point.2.1 + f j * (P.getD j 0).2.1,
          point.2.2 + f j * (P.getD j 0).2.2) : Vector3d K))
      (0, 0, 0)
      = ∑ j in Finset.range n, f j • P.getD j 0 := by
  induction n with
  | zero => rfl
  | succ n ih =>
    rw [List.range_succ, List.foldl_append, ih, Finset.sum_range_succ]
    rfl

theorem compute_point_eq_sum (P : List (Vector3d K)) (knots : List K) (first d : ℕ) (u : K)
    (hu : u < knots.getD (first + P.length) 0) :
    compute_point P knots first d u
      = ∑ j in Finset.range P.length,
          cox_de_boor (fun k => knots.getD k 0) (first + j) d u • P.getD j 0 := by
  unfold compute_point
  simp only [access_at, ge_iff_le, if_neg (not_le.mpr hu)]
  rw [fold_eq_sum P (fun j => basis_function knots first j d u)]
  simp only [basis_function_eq]

theorem compute_point_eq_sum_clamped (P : List (Vector3d K)) (knots : List K) (first d : ℕ)
    (u : K) (hu : knots.getD (first + P.length) 0 ≤ u) :
    compute_point P knots first d u
      = ∑ j in Finset.range P.length,
          cox_de_boor (fun k => knots.getD k 0) (first + j) d
            (knots.getD (first + P.length) 0 - epsilon) • P.getD j 0 := by
  unfold compute_point
  simp only [access_at, ge_iff_le, if_pos hu]
  rw [fold_eq_sum P
    (fun j => basis_function knots first j d (knots.getD (first + P.length) 0 - epsilon))]
  simp only [basis_function_eq]

end Curve


/-! ## Properties of the knot vector -/

section KnotClaims

variable {K : Type} [LinearOrderedField K]

theorem count_cast_range (m c : ℕ) (hc : c < m) :
    List.count (c : K) ((List.range m).map (fun k : ℕ => (k : K))) = 1 := by
  have e : (c : K) = (fun k : ℕ => (k : K)) c := rfl
  rw [e, List.count_map_of_injective _ _ Nat.cast_injective]
  exact List.count_eq_one_of_mem (List.nodup_range m) (List.mem_range.mpr hc)

/-- C2: for every degree `p ≥ 1`, every number `N ≥ p + 1` of de Boor points and
either value of the hit-endpoints flag the knot vector has exactly `N + p + 1`
entries and is non-decreasing: `knot[j] ≤ knot[j+1]` for every `j < N + p`. -/
theorem knot_vector_length_nondecreasing (p N : ℕ) (_hp : 1 ≤ p) (hN : p + 1 ≤ N)
    (hit : Bool) :
    (knot_vector N p hit : List K).length = N + p + 1 ∧
      ∀ j, j < N + p →
        (knot_vector N p hit : List K).getD j 0 ≤ (knot_vector N p hit : List K).getD (j + 1) 0 := by
  refine ⟨knot_vector_length N p hit, fun j hj => ?_⟩
  rw [knot_vector_getD N p hit hN j (by omega), knot_vector_getD N p hit hN (j + 1) (by omega)]
  exact knot_value_cast_mono N p hit (Nat.le_succ j)

/-- Witness of C2: five de Boor points, degree 2, clamped ends. -/
theorem knot_vector_length_nondecreasing_witness :
    1 ≤ 2 ∧ 2 + 1 ≤ 5 ∧
      ((knot_vector 5 2 true : List ℚ).length = 5 + 2 + 1 ∧
        ∀ j, j < 5 + 2 →
          (knot_vector 5 2 true : List ℚ).getD j 0 ≤ (knot_vector 5 2 true : List ℚ).getD (j + 1) 0) :=
  ⟨by decide, by decide, knot_vector_length_nondecreasing 2 5 (by decide) (by decide) true⟩

/-- C3: for every `p ≥ 1` and `N ≥ p + 1` the knot vector built by the code is the
one of the reference definition.  With hit-endpoints: `knot[j] = 0` for `j < p`,
`knot[j] = N - p` for `N < j ≤ N + p`, and `knot[j] = j - p` for `p ≤ j ≤ N` (the
consecutive integers `0, ..., N - p`).  Without: `knot[j] = j` for every `j ≤ N + p`. -/
theorem knot_vector_matches_reference (p N : ℕ) (_hp : 1 ≤ p) (hN : p + 1 ≤ N) :
    (∀ hit, (knot_vector N p hit : List K) = knot_vector_reference N p hit) ∧
      (∀ j, j < p → (knot_vector N p true : List K).getD j 0 = 0) ∧
      (∀ j, N < j → j ≤ N + p →
        (knot_vector N p true : List K).getD j 0 = ((N : K) - (p : K))) ∧
      (∀ j, p ≤ j → j ≤ N → (knot_vector N p true : List K).getD j 0 = ((j : K) - (p : K))) ∧
      (∀ j, j ≤ N + p → (knot_vector N p false : List K).getD j 0 = (j : K)) := by
  refine ⟨fun hit => knot_vector_eq_reference N p hit hN, ?_, ?_, ?_, ?_⟩
  · intro j hj
    rw [knot_vector_getD N p true hN j (by omega)]
    have : knot_value N p true j = 0 := by simp only [knot_value, if_true]; omega
    rw [this, Nat.cast_zero]
  · intro j h1 h2
    rw [knot_vector_getD N p true hN j h2]
    have : knot_value N p true j = N - p := by simp only [knot_value, if_true]; omega
    rw [this, Nat.cast_sub (by omega)]
  · intro j h1 h2
    rw [knot_vector_getD N p true hN j (by omega)]
    have : knot_value N p true j = j - p := by simp only [knot_value, if_true]; omega
    rw [this, Nat.cast_sub h1]
  · intro j hj
    rw [knot_vector_getD N p false hN j hj]
    simp [knot_value]

/-- Witness of C3: five de Boor points, degree 2. -/
theorem knot_vector_matches_reference_witness :
    1 ≤ 2 ∧ 2 + 1 ≤ 5 ∧
      (knot_vector 5 2 true : List ℚ) = [0, 0, 0, 1, 2, 3, 3, 3] ∧
      (knot_vector 5 2 false : List ℚ) = [0, 1, 2, 3, 4, 5, 6, 7] ∧
      (∀ hit, (knot_vector 5 2 hit : List ℚ) = knot_vector_reference 5 2 hit) :=
  ⟨by decide, by decide, by decide, by decide,
    (knot_vector_matches_reference 2 5 (by decide) (by decide)).1⟩

/-- C4, as the code behaves: for every `p ≥ 1` and `N ≥ p + 1` the first knot value
`0` and the last knot value `N - p` of the clamped knot vector both occur exactly
`p + 1` times (the `p` entries set by the clamping loop and one entry of the
consecutive integers `0, ..., N - p`). -/
theorem knot_vector_end_multiplicity (p N : ℕ) (_hp : 1 ≤ p) (hN : p + 1 ≤ N) :
    List.count (0 : K) (knot_vector N p true) = p + 1 ∧
      List.count ((N - p : ℕ) : K) (knot_vector N p true) = p + 1 := by
  have h0 : ((0 : ℕ) : K) ≠ ((N - p : ℕ) : K) := by
    intro h
    have := Nat.cast_injective h
    omega
  rw [knot_vector_eq_reference N p true hN]
  simp only [knot_vector_reference, if_true, List.count_append, List.count_replicate]
  constructor
  · have h1 := count_cast_range (K := K) (N - p + 1) 0 (by omega)
    rw [Nat.cast_zero] at h0 h1
    rw [h1]
    simp [Ne.symm h0]
  · have h1 := count_cast_range (K := K) (N - p + 1) (N - p) (by omega)
    rw [Nat.cast_zero] at h0
    rw [h1]
    simp [h0]
    omega

/-- Witness of C4 (amended): five de Boor points, degree 2. -/
theorem knot_vector_end_multiplicity_witness :
    1 ≤ 2 ∧ 2 + 1 ≤ 5 ∧
      (List.count (0 : ℚ) (knot_vector 5 2 true) = 2 + 1 ∧
        List.count (((5 - 2 : ℕ) : ℚ)) (knot_vector 5 2 true) = 2 + 1) :=
  ⟨by decide, by decide, knot_vector_end_multiplicity 2 5 (by decide) (by decide)⟩

/-- C4, counterexample: for five de Boor points and degree 2 the clamped knot vector
is `[0, 0, 0, 1, 2, 3, 3, 3]`; the first knot value `0` occurs three times, not
twice, and so does the last knot value `3`. -/
theorem knot_vector_end_multiplicity_not_degree :
    (knot_vector 5 2 true : List ℚ) = [0, 0, 0, 1, 2, 3, 3, 3] ∧
      ¬ (List.count (0 : ℚ) (knot_vector 5 2 true) = 2) ∧
      ¬ (List.count (((5 - 2 : ℕ) : ℚ)) (knot_vector 5 2 true) = 2) := by
  decide

end KnotClaims

/-! ## The filter: validation and sampling -/

section Filter

variable {K : Type} [LinearOrderedField K]

theorem RequestData_valid (sqrt : K → K) (self : b_spline) (input : List (Vector3d K))
    (h1 : 1 ≤ self.Degree) (h2 : self.Degree + 1 ≤ self.NumberOfPoints)
    (h3 : self.Degree + 1 ≤ (input.length : Int)) :
    RequestData sqrt self input =
      (1, some (sampled_output sqrt self.Degree.toNat self.NumberOfPoints.toNat
        (decide (self.HitEndpoints ≠ 0)) input)) := by
  unfold RequestData
  rw [if_neg (by omega), if_neg (by omega), if_neg (by omega)]
  rfl

theorem knot_span_pos (N p : ℕ) (hit : Bool) (hN : p + 1 ≤ N) :
    (knot_vector N p hit : List K).getD p 0 < (knot_vector N p hit : List K).getD N 0 := by
  rw [knot_vector_getD N p hit hN p (by omega), knot_vector_getD N p hit hN N (by omega)]
  apply Nat.cast_lt.mpr
  cases hit
  · simp only [knot_value, Bool.false_eq_true, if_false]
    omega
  · simp only [knot_value, if_true]
    omega

theorem arc_position_lt (knots : List K) (p N M : ℕ) (hM : 2 ≤ M)
    (hk : knots.getD p 0 < knots.getD N 0) (i j : ℕ) (hij : i < j) :
    arc_position knots p N M i < arc_position knots p N M j := by
  unfold arc_position
  have hM1 : (0 : K) < ((M - 1 : ℕ) : K) := Nat.cast_pos.mpr (by omega)
  have hstep : 0 < (knots.getD N 0 - knots.getD p 0) / ((M - 1 : ℕ) : K) :=
    div_pos (sub_pos.mpr hk) hM1
  have hc : (i : K) < (j : K) := Nat.cast_lt.mpr hij
  simp only
  nlinarith

theorem arc_position_zero (knots : List K) (p N M : ℕ) :
    arc_position knots p N M 0 = knots.getD p 0 := by
  simp [arc_position]

theorem arc_position_last (knots : List K) (p N M : ℕ) (hM : 2 ≤ M) :
    arc_position knots p N M (M - 1) = knots.getD N 0 := by
  have hM1 : ((M - 1 : ℕ) : K) ≠ 0 := Nat.cast_ne_zero.mpr (by omega)
  unfold arc_position
  simp only
  generalize ((M - 1 : ℕ) : K) = m at hM1
  rw [mul_div_cancel₀ _ hM1]
  ring


theorem RequestData_invalid (sqrt : K → K) (self : b_spline) (input : List (Vector3d K))
    (h : self.Degree < 1 ∨ self.NumberOfPoints < self.Degree + 1 ∨
      (input.length : Int) < self.Degree + 1) :
    RequestData sqrt self input = (0, none) := by
  unfold RequestData
  by_cases h1 : self.Degree < 1
  · rw [if_pos h1]
  · rw [if_neg h1]
    by_cases h2 : self.NumberOfPoints < self.Degree + 1
    · rw [if_pos h2]
    · rw [if_neg h2, if_pos (by omega)]

/-- C1: `RequestData` fails, that is returns 0, if and only if the degree is below 1,
or the number of output points is below degree + 1, or the number of de Boor points
is below degree + 1; when it fails nothing is written to the output, and for every
other input it returns 1 and the output is written. -/
theorem RequestData_fails_iff (sqrt : K → K) (self : b_spline) (input : List (Vector3d K)) :
    ((RequestData sqrt self input).1 = 0 ↔
        (self.Degree < 1 ∨ self.NumberOfPoints < self.Degree + 1 ∨
          (input.length : Int) < self.Degree + 1)) ∧
      ((RequestData sqrt self input).1 = 0 → (RequestData sqrt self input).2 = none) ∧
      ((RequestData sqrt self input).1 ≠ 0 →
        (RequestData sqrt self input).1 = 1 ∧ (RequestData sqrt self input).2.isSome = true) := by
  by_cases h : self.Degree < 1 ∨ self.NumberOfPoints < self.Degree + 1 ∨
      (input.length : Int) < self.Degree + 1
  · rw [RequestData_invalid sqrt self input h]
    exact ⟨⟨fun _ => h, fun _ => rfl⟩, fun _ => rfl, fun h0 => absurd rfl h0⟩
  · rw [RequestData_valid sqrt self input (by omega) (by omega) (by omega)]
    have h10 : ¬ ((1 : Int) = 0) := by decide
    exact ⟨⟨fun h0 => absurd h0 h10, fun h0 => absurd h0 h⟩,
      fun h0 => absurd h0 h10, fun _ => ⟨rfl, rfl⟩⟩

/-- C8: for every valid input (degree `p ≥ 1`, `N ≥ p + 1` de Boor points, `M ≥ p + 1`
output points, either flag) `RequestData` succeeds and produces exactly `M` points
and `M` arc parameters `u_i = knot[p] + i * (knot[N] - knot[p]) / (M - 1)`; the
divisor `M - 1` is not zero, the first arc parameter is `knot[p]`, the last one is
`knot[N]`, and the arc parameters are strictly increasing. -/
theorem sampler_arc_parameters (sqrt : K → K) (p N M : ℕ) (flag : Int)
    (input : List (Vector3d K)) (hp : 1 ≤ p) (hN : p + 1 ≤ N) (hM : p + 1 ≤ M)
    (hlen : input.length = N) :
    ∃ out : PolyData K,
      RequestData sqrt ⟨(p : Int), (M : Int), flag⟩ input = (1, some out) ∧
      out.points.length = M ∧ out.parametric_position.length = M ∧
      ((M : K) - 1 ≠ 0) ∧
      (∀ i, i < M →
        out.parametric_position.getD i 0 =
          (knot_vector N p (decide (flag ≠ 0)) : List K).getD p 0
            + (i : K) * (((knot_vector N p (decide (flag ≠ 0)) : List K).getD N 0
                - (knot_vector N p (decide (flag ≠ 0)) : List K).getD p 0) / ((M : K) - 1))) ∧
      out.parametric_position.getD 0 0 = (knot_vector N p (decide (flag ≠ 0)) : List K).getD p 0 ∧
      out.parametric_position.getD (M - 1) 0
        = (knot_vector N p (decide (flag ≠ 0)) : List K).getD N 0 ∧
      (∀ i j, i < j → j < M →
        out.parametric_position.getD i 0 < out.parametric_position.getD j 0) := by
  subst hlen
  have hcast : ((M - 1 : ℕ) : K) = (M : K) - 1 := by
    rw [Nat.cast_sub (by omega), Nat.cast_one]
  have hval : ∀ i, i < M →
      ((List.range M).map (arc_position (knot_vector input.length p (decide (flag ≠ 0)) : List K)
        p input.length M)).getD i 0
        = arc_position (knot_vector input.length p (decide (flag ≠ 0)) : List K)
            p input.length M i := by
    intro i hi
    rw [List.getD_eq_getElem?_getD, List.getElem?_map, List.getElem?_range hi]
    rfl
  refine ⟨sampled_output sqrt p M (decide (flag ≠ 0)) input, ?_, ?_, ?_, ?_, ?_, ?_, ?_, ?_⟩
  · rw [RequestData_valid sqrt _ input (by simpa using hp)
      (by simp only; omega) (by simp only; omega)]
    simp
  · simp [sampled_output]
  · simp [sampled_output]
  · rw [← hcast]
    exact Nat.cast_ne_zero.mpr (by omega)
  · intro i hi
    simp only [sampled_output]
    rw [hval i hi, ← hcast]
    rfl
  · simp only [sampled_output]
    rw [hval 0 (by omega), arc_position_zero]
  · simp only [sampled_output]
    rw [hval (M - 1) (by omega), arc_position_last _ _ _ _ (by omega)]
  · intro i j hij hj
    simp only [sampled_output]
    rw [hval i (by omega), hval j hj]
    exact arc_position_lt _ p input.length M (by omega)
      (knot_span_pos input.length p _ hN) i j hij

/-- Witness of C8: the scenario of the specification, five de Boor points, degree 2,
nine output points, clamped ends. -/
theorem sampler_arc_parameters_witness :
    ∃ out : PolyData ℚ,
      RequestData (fun x => x) ⟨((2 : ℕ) : Int), ((9 : ℕ) : Int), 1⟩
        [(0, 0, 0), (1, 2, 0), (2, 2, 0), (3, 0, 0), (4, 1, 0)] = (1, some out) ∧
      out.points.length = 9 ∧ out.parametric_position.length = 9 ∧
      (((9 : ℕ) : ℚ) - 1 ≠ 0) ∧
      (∀ i, i < 9 →
        out.parametric_position.getD i 0 =
          (knot_vector 5 2 (decide ((1 : Int) ≠ 0)) : List ℚ).getD 2 0
            + (i : ℚ) * (((knot_vector 5 2 (decide ((1 : Int) ≠ 0)) : List ℚ).getD 5 0
                - (knot_vector 5 2 (decide ((1 : Int) ≠ 0)) : List ℚ).getD 2 0)
                  / (((9 : ℕ) : ℚ) - 1))) ∧
      out.parametric_position.getD 0 0 = (knot_vector 5 2 (decide ((1 : Int) ≠ 0)) : List ℚ).getD 2 0 ∧
      out.parametric_position.getD (9 - 1) 0
        = (knot_vector 5 2 (decide ((1 : Int) ≠ 0)) : List ℚ).getD 5 0 ∧
      (∀ i j, i < j → j < 9 →
        out.parametric_position.getD i 0 < out.parametric_position.getD j 0) :=
  sampler_arc_parameters (fun x => x) 2 5 9 1
    [(0, 0, 0), (1, 2, 0), (2, 2, 0), (3, 0, 0), (4, 1, 0)]
    (by decide) (by decide) (by decide) rfl

end Filter

/-! ## The basis functions on the knot vector of the filter -/

section BuiltKnots

variable {K : Type} [LinearOrderedField K]

theorem knot_fn_mono (N p : ℕ) (hit : Bool) : Monotone (knot_fn N p hit : ℕ → K) :=
  knot_value_cast_mono N p hit

theorem knot_vector_getD_fn (N p : ℕ) (hit : Bool) (hN : p + 1 ≤ N) (j : ℕ)
    (hj : j ≤ N + p) :
    (knot_vector N p hit : List K).getD j 0 = knot_fn N p hit j :=
  knot_vector_getD N p hit hN j hj

theorem cox_de_boor_knot_vector (N p : ℕ) (hit : Bool) (hN : p + 1 ≤ N) (j d : ℕ) (u : K)
    (h : j + d + 1 ≤ N + p) :
    cox_de_boor (fun k => (knot_vector N p hit : List K).getD k 0) j d u
      = cox_de_boor (knot_fn N p hit) j d u :=
  cox_de_boor_congr _ _ j d u
    (fun k _ h2 => knot_vector_getD_fn N p hit hN k (by omega))

theorem basis_function_knot_vector (N p : ℕ) (hit : Bool) (hN : p + 1 ≤ N) (first j d : ℕ)
    (u : K) (h : first + j + d + 1 ≤ N + p) :
    basis_function (knot_vector N p hit : List K) first j d u
      = cox_de_boor (knot_fn N p hit) (first + j) d u := by
  rw [basis_function_eq, cox_de_boor_knot_vector N p hit hN _ _ _ h]

theorem basis_function_sum (N p : ℕ) (hit : Bool) (hN : p + 1 ≤ N) (u : K)
    (h1 : (knot_vector N p hit : List K).getD p 0 ≤ u)
    (h2 : u < (knot_vector N p hit : List K).getD N 0) :
    ∑ j in Finset.range N, basis_function (knot_vector N p hit : List K) 0 j p u = 1 := by
  rw [knot_vector_getD_fn N p hit hN p (by omega)] at h1
  rw [knot_vector_getD_fn N p hit hN N (by omega)] at h2
  have hNp : knot_fn N p hit N = (knot_fn N p hit (p + (N - p)) : K) := by
    congr 1
    omega
  rw [hNp] at h2
  obtain ⟨i, hi1, hi2, hi3, hi4⟩ := exists_knot_interval (knot_fn N p hit) u p (N - p) h1 h2
  have hs : ∀ j ∈ Finset.range N,
      basis_function (knot_vector N p hit : List K) 0 j p u
        = cox_de_boor (knot_fn N p hit) j p u := by
    intro j hj
    have hj1 := Finset.mem_range.mp hj
    rw [basis_function_knot_vector N p hit hN 0 j p u (by omega), Nat.zero_add]
  rw [Finset.sum_congr rfl hs]
  exact cox_de_boor_sum (knot_fn N p hit) (knot_fn_mono N p hit) i u hi3 hi4 p N hi1 (by omega)

/-- C5, as the code behaves: partition of unity on the domain of the curve.  For
every degree `p ≥ 1`, `N ≥ p + 1`, the knot vector of the filter (clamped or
uniform) and every parameter `u` with `knot[p] ≤ u < knot[N]`, the `N` values
`basis_function(knots, j, p, u)` sum to 1. -/
theorem partition_of_unity_on_domain (p N : ℕ) (_hp : 1 ≤ p) (hN : p + 1 ≤ N) (hit : Bool)
    (u : K) (h1 : (knot_vector N p hit : List K).getD p 0 ≤ u)
    (h2 : u < (knot_vector N p hit : List K).getD N 0) :
    ∑ j in Finset.range N, basis_function (knot_vector N p hit : List K) 0 j p u = 1 := by
  exact basis_function_sum N p hit hN u h1 h2

/-- Witness of C5 (amended): five de Boor points, degree 2, clamped ends, `u = 5/2`. -/
theorem partition_of_unity_on_domain_witness :
    1 ≤ 2 ∧ 2 + 1 ≤ 5 ∧ (knot_vector 5 2 true : List ℚ).getD 2 0 ≤ 5 / 2 ∧
      (5 / 2 : ℚ) < (knot_vector 5 2 true : List ℚ).getD 5 0 ∧
      ∑ j in Finset.range 5, basis_function (knot_vector 5 2 true : List ℚ) 0 j 2 (5 / 2) = 1 :=
  ⟨by decide, by decide, by decide!, by decide!,
    partition_of_unity_on_domain 2 5 (by decide) (by decide) true (5 / 2)
      (by decide!) (by decide!)⟩

/-- C5, counterexample: for five de Boor points, degree 2 and the clamped knot vector
`[0, 0, 0, 1, 2, 3, 3, 3]` every basis function vanishes at `u = 3 = knot[N]`, and at
`u = -1`, so the sum over the five indices is 0 and not 1. -/
theorem partition_of_unity_fails_off_domain :
    ∑ j in Finset.range 5, basis_function (knot_vector 5 2 true : List ℚ) 0 j 2 3 = 0 ∧
      ∑ j in Finset.range 5, basis_function (knot_vector 5 2 true : List ℚ) 0 j 2 (-1) = 0 ∧
      ¬ (∀ u : ℚ,
        ∑ j in Finset.range 5, basis_function (knot_vector 5 2 true : List ℚ) 0 j 2 u = 1) := by
  have h3 : ∑ j in Finset.range 5,
      basis_function (knot_vector 5 2 true : List ℚ) 0 j 2 3 = 0 := by decide!
  refine ⟨h3, by decide!, fun h => ?_⟩
  have h1 := h 3
  rw [h3] at h1
  exact absurd h1 (by decide)


theorem knot_fn_succ (N p : ℕ) (hit : Bool) (i : ℕ) (hi : p ≤ i) (hiN : i < N) :
    (knot_fn N p hit (i + 1) : K) = knot_fn N p hit i + 1 := by
  simp only [knot_fn]
  rw [knot_value_succ N p hit i hi hiN, Nat.cast_add, Nat.cast_one]

theorem compute_point_start (p N : ℕ) (hN : p + 1 ≤ N) (input : List (Vector3d K))
    (hlen : input.length = N) :
    compute_point input (knot_vector N p true) 0 p ((knot_vector N p true : List K).getD p 0)
      = input.getD 0 0 := by
  subst hlen
  have hspan := knot_span_pos (K := K) input.length p true hN
  rw [compute_point_eq_sum _ _ _ _ _ (by rw [Nat.zero_add]; exact hspan)]
  have ht := knot_fn_mono (K := K) input.length p true
  have hlt : (knot_fn input.length p true p : K) < knot_fn input.length p true (p + 1) := by
    rw [knot_fn_succ input.length p true p le_rfl (by omega)]
    exact lt_add_one _
  have he : (knot_fn input.length p true (p - p) : K) = knot_fn input.length p true p := by
    simp [knot_fn, knot_value]
  have hs : ∀ j ∈ Finset.range input.length,
      cox_de_boor (fun k => (knot_vector input.length p true : List K).getD k 0) (0 + j) p
          ((knot_vector input.length p true : List K).getD p 0) • input.getD j 0
        = if j = 0 then input.getD 0 0 else 0 := by
    intro j hj
    have hj1 := Finset.mem_range.mp hj
    rw [cox_de_boor_knot_vector input.length p true hN _ _ _ (by omega),
      knot_vector_getD_fn input.length p true hN p (by omega), Nat.zero_add,
      cox_de_boor_at_knot _ ht p hlt p le_rfl he j, Nat.sub_self]
    by_cases h0 : j = 0
    · rw [if_pos h0, if_pos h0, h0, one_smul]
    · rw [if_neg h0, if_neg h0, zero_smul]
  rw [Finset.sum_congr rfl hs, Finset.sum_ite_eq', if_pos (Finset.mem_range.mpr (by omega))]

/-- C6: start-point interpolation.  For every degree `p ≥ 1`, every control polygon
with `N ≥ p + 1` points and the knot vector built with hit-endpoints true,
`compute_point` at `u = knot[p]` returns exactly the first de Boor point; hence the
first output point of `RequestData` (for any number `M ≥ p + 1` of output points) is
the first de Boor point. -/
theorem start_point_interpolation (sqrt : K → K) (p N M : ℕ) (flag : Int)
    (input : List (Vector3d K)) (hp : 1 ≤ p) (hN : p + 1 ≤ N) (hM : p + 1 ≤ M)
    (hflag : flag ≠ 0) (hlen : input.length = N) :
    compute_point input (knot_vector N p true) 0 p ((knot_vector N p true : List K).getD p 0)
        = input.getD 0 0 ∧
      ∃ out : PolyData K,
        RequestData sqrt ⟨(p : Int), (M : Int), flag⟩ input = (1, some out) ∧
        out.points.getD 0 0 = input.getD 0 0 := by
  refine ⟨compute_point_start p N hN input hlen, ?_⟩
  refine ⟨sampled_output sqrt p M (decide (flag ≠ 0)) input, ?_, ?_⟩
  · rw [RequestData_valid sqrt _ input (by simpa using hp)
      (by simp only; omega) (by simp only; omega)]
    simp
  · have hd : decide (flag ≠ 0) = true := decide_eq_true hflag
    simp only [sampled_output, hd]
    rw [List.getD_eq_getElem?_getD, List.getElem?_map, List.getElem?_map,
      List.getElem?_range (by omega)]
    simp only [Option.map_some', Option.getD_some]
    rw [arc_position_zero, hlen]
    exact compute_point_start p N hN input hlen

/-- Witness of C6: the scenario of the specification. -/
theorem start_point_interpolation_witness :
    compute_point [((0 : ℚ), (0 : ℚ), (0 : ℚ)), (1, 2, 0), (2, 2, 0), (3, 0, 0), (4, 1, 0)]
        (knot_vector 5 2 true) 0 2 ((knot_vector 5 2 true : List ℚ).getD 2 0)
        = ([((0 : ℚ), (0 : ℚ), (0 : ℚ)), (1, 2, 0), (2, 2, 0), (3, 0, 0), (4, 1, 0)]).getD 0 0 ∧
      ∃ out : PolyData ℚ,
        RequestData (fun x => x) ⟨((2 : ℕ) : Int), ((9 : ℕ) : Int), 1⟩
          [(0, 0, 0), (1, 2, 0), (2, 2, 0), (3, 0, 0), (4, 1, 0)] = (1, some out) ∧
        out.points.getD 0 0
          = ([((0 : ℚ), (0 : ℚ), (0 : ℚ)), (1, 2, 0), (2, 2, 0), (3, 0, 0), (4, 1, 0)]).getD 0 0 :=
  start_point_interpolation (fun x => x) 2 5 9 1
    [(0, 0, 0), (1, 2, 0), (2, 2, 0), (3, 0, 0), (4, 1, 0)]
    (by decide) (by decide) (by decide) (by decide) rfl


/-- C7, as the code behaves: for the de Boor points (0,0,0), (1,2,0), (2,2,0),
(3,0,0), (4,1,0), degree 2, hit-endpoints true and nine output points, the last output
point belongs to the arc parameter `knot[5] = 3`, where `compute_point` moves the
parameter to `3 - 0.0001f`; with `e = 0.0001f` it is the point
`(4 - 2e + e²/2, 1 - 2e + 2e², 0)`, which differs from (4,1,0) by less than `0.0002`
in every coordinate. -/
theorem last_sample_of_scenario (sqrt : ℚ → ℚ) :
    ∃ out : PolyData ℚ,
      RequestData sqrt ⟨2, 9, 1⟩ [(0, 0, 0), (1, 2, 0), (2, 2, 0), (3, 0, 0), (4, 1, 0)]
        = (1, some out) ∧
      out.points.length = 9 ∧
      out.parametric_position.getD 8 0 = (knot_vector 5 2 true : List ℚ).getD 5 0 ∧
      (knot_vector 5 2 true : List ℚ).getD 5 0 = 3 ∧
      out.points.getD 8 0 =
        (4 - 2 * epsilon + epsilon ^ 2 / 2, 1 - 2 * epsilon + 2 * epsilon ^ 2, 0) ∧
      |(out.points.getD 8 0).1 - 4| < 2 / 10000 ∧
      |(out.points.getD 8 0).2.1 - 1| < 2 / 10000 ∧
      (out.points.getD 8 0).2.2 = 0 := by
  refine ⟨sampled_output sqrt 2 9 true
    [(0, 0, 0), (1, 2, 0), (2, 2, 0), (3, 0, 0), (4, 1, 0)], ?_, ?_, ?_, ?_, ?_, ?_, ?_, ?_⟩
  · rw [RequestData_valid sqrt _ _ (by decide) (by decide) (by decide)]
    rfl
  · simp only [sampled_output]
    decide!
  · simp only [sampled_output]
    decide!
  · decide!
  · simp only [sampled_output]
    decide!
  · simp only [sampled_output]
    decide!
  · simp only [sampled_output]
    decide!
  · simp only [sampled_output]
    decide!

/-- C7, counterexample: in the scenario of the specification the last of the nine
output points is not (4,1,0); its first coordinate is
`151108171854541580395537 / 37778931862957161709568`, about 3.9998. -/
theorem last_sample_differs_from_control_point :
    (RequestData (fun x => x) ⟨2, 9, 1⟩
        [((0 : ℚ), (0 : ℚ), (0 : ℚ)), (1, 2, 0), (2, 2, 0), (3, 0, 0), (4, 1, 0)]).2.map
        (fun out => out.points.getD (9 - 1) 0)
      = some (151108171854541580395537 / 37778931862957161709568,
          9442844208088511144977 / 9444732965739290427392, 0) ∧
    (RequestData (fun x => x) ⟨2, 9, 1⟩
        [((0 : ℚ), (0 : ℚ), (0 : ℚ)), (1, 2, 0), (2, 2, 0), (3, 0, 0), (4, 1, 0)]).2.map
        (fun out => out.points.getD (9 - 1) 0)
      ≠ some (4, 1, 0) := by
  decide!

end BuiltKnots

/-! ## The closed form of degree 2 -/

section Quadratic

variable {K : Type} [LinearOrderedField K]

theorem cox_de_boor_two_sum (t : ℕ → K) (ht : Monotone t) (m : ℕ) (u : K)
    (h1 : t (m + 2) ≤ u) (h2 : u < t (m + 3)) (P : ℕ → Vector3d K) (n : ℕ) (hn : m + 3 ≤ n) :
    ∑ j in Finset.range n, cox_de_boor t j 2 u • P j
      = cox_de_boor t m 2 u • P m + cox_de_boor t (m + 1) 2 u • P (m + 1)
        + cox_de_boor t (m + 2) 2 u • P (m + 2) := by
  rw [← Finset.sum_range_add_sum_Ico _ hn, Finset.sum_range_succ, Finset.sum_range_succ,
    Finset.sum_range_succ]
  have hlow : ∑ j in Finset.range m, cox_de_boor t j 2 u • P j = 0 := by
    apply Finset.sum_eq_zero
    intro j hj
    have hj1 := Finset.mem_range.mp hj
    rw [cox_de_boor_support t ht (m + 2) u h1 h2 j 2 (by omega), zero_smul]
  have hhigh : ∑ j in Finset.Ico (m + 3) n, cox_de_boor t j 2 u • P j = 0 := by
    apply Finset.sum_eq_zero
    intro j hj
    have hj1 := (Finset.mem_Ico.mp hj).1
    rw [cox_de_boor_support t ht (m + 2) u h1 h2 j 2 (by omega), zero_smul]
  rw [hlow, hhigh, zero_add, add_zero]

theorem cox_de_boor_one_eq (t : ℕ → K) (ht : Monotone t) (i : ℕ) (u : K)
    (h1 : t i ≤ u) (h2 : u < t (i + 1)) (j : ℕ) :
    cox_de_boor t j 1 u
      = (u - t j) / (t (j + 1) - t j) * (if j = i then 1 else 0)
        + (t (j + 2) - u) / (t (j + 2) - t (j + 1)) * (if j + 1 = i then 1 else 0) := by
  have e : cox_de_boor t j 1 u
      = (u - t j) / (t (j + 1) - t j) * cox_de_boor t j 0 u
        + (t (j + 2) - u) / (t (j + 2) - t (j + 1)) * cox_de_boor t (j + 1) 0 u := rfl
  rw [e, cox_de_boor_zero_eq t ht i u h1 h2 j, cox_de_boor_zero_eq t ht i u h1 h2 (j + 1)]

theorem cox_de_boor_two_eq (t : ℕ → K) (j : ℕ) (u : K) :
    cox_de_boor t j 2 u
      = (u - t j) / (t (j + 2) - t j) * cox_de_boor t j 1 u
        + (t (j + 3) - u) / (t (j + 3) - t (j + 1)) * cox_de_boor t (j + 1) 1 u := rfl

theorem cox_de_boor_two_values (t : ℕ → K) (ht : Monotone t) (m : ℕ) (u : K)
    (h1 : t (m + 2) ≤ u) (h2 : u < t (m + 3)) :
    cox_de_boor t m 2 u
        = (t (m + 3) - u) / (t (m + 3) - t (m + 1)) * ((t (m + 3) - u) / (t (m + 3) - t (m + 2))) ∧
      cox_de_boor t (m + 1) 2 u
        = (u - t (m + 1)) / (t (m + 3) - t (m + 1)) * ((t (m + 3) - u) / (t (m + 3) - t (m + 2)))
          + (t (m + 4) - u) / (t (m + 4) - t (m + 2)) * ((u - t (m + 2)) / (t (m + 3) - t (m + 2))) ∧
      cox_de_boor t (m + 2) 2 u
        = (u - t (m + 2)) / (t (m + 4) - t (m + 2)) * ((u - t (m + 2)) / (t (m + 3) - t (m + 2))) := by
  have hz := cox_de_boor_one_eq t ht (m + 2) u h1 h2
  have e0 : cox_de_boor t m 1 u = 0 := by
    rw [hz, if_neg (by omega), if_neg (by omega), mul_zero, mul_zero, add_zero]
  have e1 : cox_de_boor t (m + 1) 1 u = (t (m + 3) - u) / (t (m + 3) - t (m + 2)) := by
    rw [hz, if_neg (by omega), if_pos rfl, mul_zero, zero_add, mul_one]
  have e2 : cox_de_boor t (m + 2) 1 u = (u - t (m + 2)) / (t (m + 3) - t (m + 2)) := by
    rw [hz, if_pos rfl, if_neg (by omega), mul_zero, add_zero, mul_one]
  have e3 : cox_de_boor t (m + 3) 1 u = 0 := by
    rw [hz, if_neg (by omega), if_neg (by omega), mul_zero, mul_zero, add_zero]
  refine ⟨?_, ?_, ?_⟩
  · rw [cox_de_boor_two_eq, e0, e1, mul_zero, zero_add]
  · rw [cox_de_boor_two_eq, e1, e2]
  · rw [cox_de_boor_two_eq, e2, e3, mul_zero, add_zero]

theorem quadratic_identity (T1 T2 T3 T4 u : K) (P0 P1 P2 : Vector3d K)
    (h32 : T3 - T2 ≠ 0) (h42 : T4 - T2 ≠ 0) (h31 : T3 - T1 ≠ 0) :
    (u * u) •
        (((T4 * T3 - T4 * T2 - T3 * T2 + T2 * T2) * (T3 * T3 - T3 * T2 - T3 * T1 + T2 * T1))⁻¹ •
          ((T4 * T3 - T4 * T2 - T3 * T2 + T2 * T2) • P0
            - (T4 * T3 - T4 * T2 - T3 * T2 + T2 * T2) • P1
            - (T3 * T3 - T3 * T2 - T3 * T1 + T2 * T1) • P1
            + (T3 * T3 - T3 * T2 - T3 * T1 + T2 * T1) • P2))
      + u •
        (((T4 * T3 - T4 * T2 - T3 * T2 + T2 * T2) * (T3 * T3 - T3 * T2 - T3 * T1 + T2 * T1))⁻¹ •
          ((-2 * (T4 * T3 - T4 * T2 - T3 * T2 + T2 * T2) * T3) • P0
            + ((T4 * T3 - T4 * T2 - T3 * T2 + T2 * T2) * T3) • P1
            + ((T4 * T3 - T4 * T2 - T3 * T2 + T2 * T2) * T1) • P1
            + ((T3 * T3 - T3 * T2 - T3 * T1 + T2 * T1) * T4) • P1
            + ((T3 * T3 - T3 * T2 - T3 * T1 + T2 * T1) * T2) • P1
            - (2 * (T3 * T3 - T3 * T2 - T3 * T1 + T2 * T1) * T2) • P2))
      + ((T4 * T3 - T4 * T2 - T3 * T2 + T2 * T2) * (T3 * T3 - T3 * T2 - T3 * T1 + T2 * T1))⁻¹ •
          (((T4 * T3 - T4 * T2 - T3 * T2 + T2 * T2) * T3 * T3) • P0
            - ((T4 * T3 - T4 * T2 - T3 * T2 + T2 * T2) * T3 * T1) • P1
            - ((T3 * T3 - T3 * T2 - T3 * T1 + T2 * T1) * T4 * T2) • P1
            + ((T3 * T3 - T3 * T2 - T3 * T1 + T2 * T1) * T2 * T2) • P2)
      = ((T3 - u) / (T3 - T1) * ((T3 - u) / (T3 - T2))) • P0
        + ((u - T1) / (T3 - T1) * ((T3 - u) / (T3 - T2))
            + (T4 - u) / (T4 - T2) * ((u - T2) / (T3 - T2))) • P1
        + ((u - T2) / (T4 - T2) * ((u - T2) / (T3 - T2))) • P2 := by
  have hal : T4 * T3 - T4 * T2 - T3 * T2 + T2 * T2 = (T4 - T2) * (T3 - T2) := by ring
  have hga : T3 * T3 - T3 * T2 - T3 * T1 + T2 * T1 = (T3 - T2) * (T3 - T1) := by ring
  rw [hal, hga]
  have c0 : (T3 - u) / (T3 - T1) * ((T3 - u) / (T3 - T2))
      = ((T4 - T2) * (T3 - T2) * ((T3 - T2) * (T3 - T1)))⁻¹
        * ((T4 - T2) * (T3 - T2) * ((T3 - u) * (T3 - u))) := by
    field_simp
    ring
  have c1 : (u - T1) / (T3 - T1) * ((T3 - u) / (T3 - T2))
        + (T4 - u) / (T4 - T2) * ((u - T2) / (T3 - T2))
      = ((T4 - T2) * (T3 - T2) * ((T3 - T2) * (T3 - T1)))⁻¹
        * ((T4 - T2) * (T3 - T2) * ((u - T1) * (T3 - u))
          + (T3 - T2) * (T3 - T1) * ((T4 - u) * (u - T2))) := by
    field_simp
    ring
  have c2 : (u - T2) / (T4 - T2) * ((u - T2) / (T3 - T2))
      = ((T4 - T2) * (T3 - T2) * ((T3 - T2) * (T3 - T1)))⁻¹
        * ((T3 - T2) * (T3 - T1) * ((u - T2) * (u - T2))) := by
    field_simp
    ring
  rw [c0, c1, c2]
  generalize ((T4 - T2) * (T3 - T2) * ((T3 - T2) * (T3 - T1)))⁻¹ = I
  obtain ⟨x0, y0, z0⟩ := P0
  obtain ⟨x1, y1, z1⟩ := P1
  obtain ⟨x2, y2, z2⟩ := P2
  refine Prod.ext ?_ (Prod.ext ?_ ?_)
  · simp only [Prod.smul_mk, Prod.mk_add_mk, Prod.mk_sub_mk, smul_eq_mul]
    ring
  · simp only [Prod.smul_mk, Prod.mk_add_mk, Prod.mk_sub_mk, smul_eq_mul]
    ring
  · simp only [Prod.smul_mk, Prod.mk_add_mk, Prod.mk_sub_mk, smul_eq_mul]
    ring

theorem quadratic_point_eq (N m : ℕ) (hit : Bool) (input : List (Vector3d K)) (hN : 3 ≤ N)
    (hm : m + 3 ≤ N) (u : K)
    (h32 : (knot_fn N 2 hit (m + 3) : K) - knot_fn N 2 hit (m + 2) ≠ 0)
    (h42 : (knot_fn N 2 hit (m + 4) : K) - knot_fn N 2 hit (m + 2) ≠ 0)
    (h31 : (knot_fn N 2 hit (m + 3) : K) - knot_fn N 2 hit (m + 1) ≠ 0) :
    quadratic_point input (knot_vector N 2 hit) (m + 2) u
      = ((knot_fn N 2 hit (m + 3) - u) / (knot_fn N 2 hit (m + 3) - knot_fn N 2 hit (m + 1))
          * ((knot_fn N 2 hit (m + 3) - u)
            / (knot_fn N 2 hit (m + 3) - knot_fn N 2 hit (m + 2)))) • input.getD m 0
        + ((u - knot_fn N 2 hit (m + 1)) / (knot_fn N 2 hit (m + 3) - knot_fn N 2 hit (m + 1))
            * ((knot_fn N 2 hit (m + 3) - u)
              / (knot_fn N 2 hit (m + 3) - knot_fn N 2 hit (m + 2)))
          + (knot_fn N 2 hit (m + 4) - u) / (knot_fn N 2 hit (m + 4) - knot_fn N 2 hit (m + 2))
            * ((u - knot_fn N 2 hit (m + 2))
              / (knot_fn N 2 hit (m + 3) - knot_fn N 2 hit (m + 2)))) • input.getD (m + 1) 0
        + ((u - knot_fn N 2 hit (m + 2)) / (knot_fn N 2 hit (m + 4) - knot_fn N 2 hit (m + 2))
          * ((u - knot_fn N 2 hit (m + 2))
            / (knot_fn N 2 hit (m + 3) - knot_fn N 2 hit (m + 2)))) • input.getD (m + 2) 0 := by
  have hg : ∀ k, k ≤ N + 2 → (knot_vector N 2 hit : List K).getD k 0 = knot_fn N 2 hit k :=
    fun k hk => knot_vector_getD_fn N 2 hit (by omega) k hk
  have g1 : (knot_vector N 2 hit : List K).getD (m + 2 - 1) 0 = knot_fn N 2 hit (m + 1) :=
    hg (m + 1) (by omega)
  have g2 : (knot_vector N 2 hit : List K).getD (m + 2 + 0) 0 = knot_fn N 2 hit (m + 2) :=
    hg (m + 2) (by omega)
  have g3 : (knot_vector N 2 hit : List K).getD (m + 2 + 1) 0 = knot_fn N 2 hit (m + 3) :=
    hg (m + 3) (by omega)
  have g4 : (knot_vector N 2 hit : List K).getD (m + 2 + 2) 0 = knot_fn N 2 hit (m + 4) :=
    hg (m + 4) (by omega)
  have key := quadratic_identity (knot_fn N 2 hit (m + 1) : K) (knot_fn N 2 hit (m + 2))
    (knot_fn N 2 hit (m + 3)) (knot_fn N 2 hit (m + 4)) u
    (input.getD m 0) (input.getD (m + 1) 0) (input.getD (m + 2) 0) h32 h42 h31
  rw [← key]
  simp only [quadratic_point, quadratic_a, quadratic_b, quadratic_c, alpha, gamma, g1, g2, g3, g4]
  rfl

theorem compute_point_degree_two (N m : ℕ) (hit : Bool) (input : List (Vector3d K))
    (hlen : input.length = N) (hm : m + 3 ≤ N) (u : K)
    (h1 : (knot_fn N 2 hit (m + 2) : K) ≤ u) (h2 : u < knot_fn N 2 hit (m + 3)) :
    compute_point input (knot_vector N 2 hit) 0 2 u
      = cox_de_boor (knot_fn N 2 hit) m 2 u • input.getD m 0
        + cox_de_boor (knot_fn N 2 hit) (m + 1) 2 u • input.getD (m + 1) 0
        + cox_de_boor (knot_fn N 2 hit) (m + 2) 2 u • input.getD (m + 2) 0 := by
  subst hlen
  have ht := knot_fn_mono (K := K) input.length 2 hit
  have hu : u < (knot_vector input.length 2 hit : List K).getD (0 + input.length) 0 := by
    rw [Nat.zero_add, knot_vector_getD_fn input.length 2 hit (by omega) _ (by omega)]
    exact lt_of_lt_of_le h2 (ht (by omega))
  rw [compute_point_eq_sum _ _ _ _ _ hu]
  have hs : ∀ j ∈ Finset.range input.length,
      cox_de_boor (fun k => (knot_vector input.length 2 hit : List K).getD k 0) (0 + j) 2 u
          • input.getD j 0
        = cox_de_boor (knot_fn input.length 2 hit) j 2 u • (fun k => input.getD k 0) j := by
    intro j hj
    have hj1 := Finset.mem_range.mp hj
    rw [cox_de_boor_knot_vector input.length 2 hit (by omega) _ _ _ (by omega), Nat.zero_add]
  rw [Finset.sum_congr rfl hs,
    cox_de_boor_two_sum _ ht m u h1 h2 (fun k => input.getD k 0) input.length hm]

/-- C10: for degree 2, every control polygon with `N ≥ 3` points, the knot vector of
the filter (either flag), every segment index `i` with `2 ≤ i ≤ N - 1` and every `u`
with `knot[i] ≤ u < knot[i+1]`, the closed form `a u² + b u + c` of the degree-2
closest-point branch (with `a`, `b`, `c` computed from `alpha`, `gamma` and the
de Boor points `i-2 .. i`) equals `compute_point(controlPoints, knots, 2, u)`. -/
theorem quadratic_closed_form (N i : ℕ) (hit : Bool) (input : List (Vector3d K))
    (hN : 3 ≤ N) (hlen : input.length = N) (hi : 2 ≤ i) (hiN : i ≤ N - 1) (u : K)
    (h1 : (knot_vector N 2 hit : List K).getD i 0 ≤ u)
    (h2 : u < (knot_vector N 2 hit : List K).getD (i + 1) 0) :
    quadratic_point input (knot_vector N 2 hit) i u
      = compute_point input (knot_vector N 2 hit) 0 2 u := by
  obtain ⟨m, rfl⟩ : ∃ m, i = m + 2 := ⟨i - 2, by omega⟩
  have ht := knot_fn_mono (K := K) N 2 hit
  rw [knot_vector_getD_fn N 2 hit (by omega) _ (by omega)] at h1 h2
  have h23 : (knot_fn N 2 hit (m + 2) : K) < knot_fn N 2 hit (m + 3) := lt_of_le_of_lt h1 h2
  have h32 : (knot_fn N 2 hit (m + 3) : K) - knot_fn N 2 hit (m + 2) ≠ 0 :=
    ne_of_gt (sub_pos.mpr h23)
  have h42 : (knot_fn N 2 hit (m + 4) : K) - knot_fn N 2 hit (m + 2) ≠ 0 :=
    ne_of_gt (sub_pos.mpr (lt_of_lt_of_le h23 (ht (by omega))))
  have h31 : (knot_fn N 2 hit (m + 3) : K) - knot_fn N 2 hit (m + 1) ≠ 0 :=
    ne_of_gt (sub_pos.mpr (lt_of_le_of_lt (ht (by omega)) h23))
  obtain ⟨v0, v1, v2⟩ := cox_de_boor_two_values (knot_fn N 2 hit) ht m u h1 h2
  rw [quadratic_point_eq N m hit input hN (by omega) u h32 h42 h31,
    compute_point_degree_two N m hit input hlen (by omega) u h1 h2, v0, v1, v2]

/-- Witness of C10: the scenario of the specification, segment 3, `u = 3/2`. -/
theorem quadratic_closed_form_witness :
    3 ≤ 5 ∧ 2 ≤ 3 ∧ 3 ≤ 5 - 1 ∧ (knot_vector 5 2 true : List ℚ).getD 3 0 ≤ 3 / 2 ∧
      (3 / 2 : ℚ) < (knot_vector 5 2 true : List ℚ).getD (3 + 1) 0 ∧
      quadratic_point [((0 : ℚ), (0 : ℚ), (0 : ℚ)), (1, 2, 0), (2, 2, 0), (3, 0, 0), (4, 1, 0)]
          (knot_vector 5 2 true) 3 (3 / 2)
        = compute_point [((0 : ℚ), (0 : ℚ), (0 : ℚ)), (1, 2, 0), (2, 2, 0), (3, 0, 0), (4, 1, 0)]
          (knot_vector 5 2 true) 0 2 (3 / 2) :=
  ⟨by decide, by decide, by decide, by decide!, by decide!,
    quadratic_closed_form 5 3 true
      [(0, 0, 0), (1, 2, 0), (2, 2, 0), (3, 0, 0), (4, 1, 0)]
      (by decide) rfl (by decide) (by decide) (3 / 2) (by decide!) (by decide!)⟩

end Quadratic

/-! ## The derivative curve -/

section Hodograph

variable {K : Type} [LinearOrderedField K]

theorem inv_span_blend (t : ℕ → K) (ht : Monotone t) (j e : ℕ) :
    (t (j + e + 2) - t (j + 1))⁻¹ * ((t (j + e + 2) - t j) * (t (j + e + 2) - t j)⁻¹)
      = (t (j + e + 2) - t (j + 1))⁻¹
        * ((t (j + e + 3) - t (j + 1)) * (t (j + e + 3) - t (j + 1))⁻¹) := by
  by_cases h : t (j + e + 2) - t (j + 1) = 0
  · rw [h, inv_zero, zero_mul, zero_mul]
  · have hpos : 0 < t (j + e + 2) - t (j + 1) :=
      lt_of_le_of_ne (sub_nonneg.mpr (ht (by omega))) (Ne.symm h)
    have h1 : t (j + e + 2) - t j ≠ 0 :=
      ne_of_gt (lt_of_lt_of_le hpos (sub_le_sub_left (ht (by omega)) _))
    have h2 : t (j + e + 3) - t (j + 1) ≠ 0 :=
      ne_of_gt (lt_of_lt_of_le hpos (sub_le_sub_right (ht (by omega)) _))
    rw [mul_inv_cancel₀ h1, mul_inv_cancel₀ h2]

theorem cox_de_boor_deriv_blend (t : ℕ → K) (ht : Monotone t) (j d : ℕ) (u : K) :
    (u - t j) / (t (j + (d + 1)) - t j) * cox_de_boor_deriv t j d u
        + (t (j + (d + 1) + 1) - u) / (t (j + (d + 1) + 1) - t (j + 1))
          * cox_de_boor_deriv t (j + 1) d u
      = (d : K) * (cox_de_boor t j d u / (t (j + (d + 1)) - t j)
          - cox_de_boor t (j + 1) d u / (t (j + (d + 1) + 1) - t (j + 1))) := by
  cases d with
  | zero => simp [cox_de_boor_deriv]
  | succ e =>
    have hb := inv_span_blend t ht j e
    have e1 : j + (e + 1 + 1) = j + e + 2 := by omega
    have e2 : j + (e + 1 + 1) + 1 = j + e + 3 := by omega
    have e3 : j + (e + 1) = j + e + 1 := by omega
    have e4 : j + (e + 1) + 1 = j + e + 2 := by omega
    have e5 : j + 1 + (e + 1) = j + e + 2 := by omega
    have e6 : j + 1 + (e + 1) + 1 = j + e + 3 := by omega
    have e7 : j + 1 + 1 = j + 2 := by omega
    have e8 : j + e + 2 + 1 = j + e + 3 := by omega
    simp only [cox_de_boor_deriv, cox_de_boor, e1, e2, e3, e4, e5, e6, e7, e8]
    simp only [div_eq_mul_inv]
    push_cast
    linear_combination
      (-((e : K) + 1)) * cox_de_boor t (j + 1) e u * hb

theorem derive_length (P : List (Vector3d K)) (knots : List K) (first d : ℕ) :
    (derive P knots first d).length = P.length - 1 := by
  simp [derive]

theorem derive_getD (P : List (Vector3d K)) (knots : List K) (first d k : ℕ)
    (hk : k < P.length - 1) :
    (derive P knots first d).getD k 0
      = ((d : K) / (access_at knots first (k + d + 1) - access_at knots first (k + 1))) •
        (P.getD (k + 1) 0 - P.getD k 0) := by
  unfold derive
  rw [List.getD_eq_getElem?_getD, List.getElem?_map, List.getElem?_range hk]
  rfl

theorem sum_by_parts (c : ℕ → K) (P : ℕ → Vector3d K) (n : ℕ) :
    ∑ j in Finset.range (n + 1), (c j - c (j + 1)) • P j
      = c 0 • P 0 - c (n + 1) • P n
        + ∑ k in Finset.range n, c (k + 1) • (P (k + 1) - P k) := by
  induction n with
  | zero => simp [sub_smul]
  | succ n ih =>
    rw [Finset.sum_range_succ, ih, Finset.sum_range_succ]
    simp only [sub_smul, smul_sub]
    abel

theorem cox_de_boor_deriv_sum (t : ℕ → K) (ht : Monotone t) (i : ℕ) (u : K)
    (h1 : t i ≤ u) (h2 : u < t (i + 1)) (q n : ℕ) (hq : q + 1 ≤ i) (hn : i < n + 1)
    (P : ℕ → Vector3d K) :
    ∑ j in Finset.range (n + 1), cox_de_boor_deriv t j (q + 1) u • P j
      = ∑ k in Finset.range n,
          cox_de_boor t (k + 1) q u •
            ((((q + 1 : ℕ) : K) / (t (k + (q + 1) + 1) - t (k + 1))) • (P (k + 1) - P k)) := by
  have hc : ∀ j, cox_de_boor_deriv t j (q + 1) u
      = (fun j => ((q + 1 : ℕ) : K) * (cox_de_boor t j q u / (t (j + (q + 1)) - t j))) j
        - (fun j => ((q + 1 : ℕ) : K) * (cox_de_boor t j q u / (t (j + (q + 1)) - t j)))
            (j + 1) := by
    intro j
    have e : j + 1 + (q + 1) = j + (q + 1) + 1 := by omega
    simp only [cox_de_boor_deriv, e]
    ring
  simp only [hc]
  rw [sum_by_parts]
  rw [cox_de_boor_support t ht i u h1 h2 0 q (by omega),
    cox_de_boor_support t ht i u h1 h2 (n + 1) q (by omega)]
  simp only [zero_div, mul_zero, zero_smul, sub_zero, zero_add]
  apply Finset.sum_congr rfl
  intro k _
  have e : k + 1 + (q + 1) = k + (q + 1) + 1 := by omega
  rw [smul_smul, e]
  congr 1
  ring

theorem derivative_curve_eq_sum (N q : ℕ) (hit : Bool) (input : List (Vector3d K))
    (hlen : input.length = N) (hN : q + 2 ≤ N) (i : ℕ) (hi : q + 1 ≤ i) (hiN : i < N) (u : K)
    (h1 : (knot_fn N (q + 1) hit i : K) ≤ u) (h2 : u < knot_fn N (q + 1) hit (i + 1)) :
    compute_point (derive input (knot_vector N (q + 1) hit) 0 (q + 1))
        (knot_vector N (q + 1) hit) 1 q u
      = ∑ j in Finset.range N,
          cox_de_boor_deriv (knot_fn N (q + 1) hit) j (q + 1) u • input.getD j 0 := by
  obtain ⟨n, rfl⟩ : ∃ n, N = n + 1 := ⟨N - 1, by omega⟩
  have ht := knot_fn_mono (K := K) (n + 1) (q + 1) hit
  have hdl : (derive input (knot_vector (n + 1) (q + 1) hit : List K) 0 (q + 1)).length = n := by
    rw [derive_length, hlen, Nat.add_sub_cancel]
  have hu : u < (knot_vector (n + 1) (q + 1) hit : List K).getD
      (1 + (derive input (knot_vector (n + 1) (q + 1) hit : List K) 0 (q + 1)).length) 0 := by
    rw [hdl, knot_vector_getD_fn (n + 1) (q + 1) hit (by omega) _ (by omega)]
    exact lt_of_lt_of_le h2 (ht (by omega))
  rw [compute_point_eq_sum _ _ _ _ _ hu, hdl,
    cox_de_boor_deriv_sum _ ht i u h1 h2 q n hi hiN (fun k => input.getD k 0)]
  apply Finset.sum_congr rfl
  intro k hk
  have hk1 := Finset.mem_range.mp hk
  have e1 : 1 + k = k + 1 := by omega
  rw [cox_de_boor_knot_vector (n + 1) (q + 1) hit (by omega) _ _ _ (by omega),
    derive_getD _ _ _ _ _ (by omega), e1]
  simp only [access_at, Nat.zero_add]
  rw [knot_vector_getD_fn (n + 1) (q + 1) hit (by omega) (k + (q + 1) + 1) (by omega),
    knot_vector_getD_fn (n + 1) (q + 1) hit (by omega) (k + 1) (by omega)]

theorem cox_de_boor_hasDerivAt (t : ℕ → ℝ) (ht : Monotone t) (i : ℕ) (u : ℝ)
    (h1 : t i < u) (h2 : u < t (i + 1)) (j d : ℕ) :
    HasDerivAt (fun v => cox_de_boor t j d v) (cox_de_boor_deriv t j d u) u := by
  induction d generalizing j with
  | zero =>
    have hc : HasDerivAt (fun _ : ℝ => if j = i then (1 : ℝ) else 0) 0 u :=
      hasDerivAt_const u _
    apply hc.congr_of_eventuallyEq
    filter_upwards [Ioo_mem_nhds h1 h2] with v hv
    exact cox_de_boor_zero_eq t ht i v hv.1.le hv.2 j
  | succ d ih =>
    have hA := (((hasDerivAt_id u).sub_const (t j)).div_const (t (j + (d + 1)) - t j)).mul (ih j)
    have hB := (((hasDerivAt_id u).const_sub (t (j + (d + 1) + 1))).div_const
      (t (j + (d + 1) + 1) - t (j + 1))).mul (ih (j + 1))
    have hI := cox_de_boor_deriv_blend t ht j d u
    have e : cox_de_boor_deriv t j (d + 1) u
        = ((d + 1 : ℕ) : ℝ) * (cox_de_boor t j d u / (t (j + (d + 1)) - t j)
          - cox_de_boor t (j + 1) d u / (t (j + (d + 1) + 1) - t (j + 1))) := rfl
    convert hA.add hB using 1
    rw [e]
    simp only [id_eq]
    push_cast
    linear_combination (-1 : ℝ) * hI

theorem compute_point_hasDerivAt (N q : ℕ) (hit : Bool) (input : List (Vector3d ℝ))
    (hlen : input.length = N) (hN : q + 2 ≤ N) (i : ℕ) (hi : q + 1 ≤ i) (hiN : i < N) (u : ℝ)
    (h1 : (knot_fn N (q + 1) hit i : ℝ) < u) (h2 : u < knot_fn N (q + 1) hit (i + 1)) :
    HasDerivAt (fun v => compute_point input (knot_vector N (q + 1) hit) 0 (q + 1) v)
      (compute_point (derive input (knot_vector N (q + 1) hit) 0 (q + 1))
        (knot_vector N (q + 1) hit) 1 q u) u := by
  have ht := knot_fn_mono (K := ℝ) N (q + 1) hit
  have hsum : HasDerivAt
      (fun v => ∑ j in Finset.range N,
        cox_de_boor (knot_fn N (q + 1) hit) j (q + 1) v • input.getD j 0)
      (∑ j in Finset.range N,
        cox_de_boor_deriv (knot_fn N (q + 1) hit) j (q + 1) u • input.getD j 0) u :=
    HasDerivAt.sum fun j _ =>
      (cox_de_boor_hasDerivAt _ ht i u h1 h2 j (q + 1)).smul_const (input.getD j 0)
  rw [derivative_curve_eq_sum N q hit input hlen hN i hi hiN u h1.le h2]
  apply hsum.congr_of_eventuallyEq
  filter_upwards [Ioo_mem_nhds h1 h2] with v hv
  have hv2 : v < (knot_vector N (q + 1) hit : List ℝ).getD (0 + input.length) 0 := by
    rw [Nat.zero_add, hlen, knot_vector_getD_fn N (q + 1) hit (by omega) _ (by omega)]
    exact lt_of_lt_of_le hv.2 (ht (by omega))
  rw [compute_point_eq_sum _ _ _ _ _ hv2, hlen]
  apply Finset.sum_congr rfl
  intro j hj
  have hj1 := Finset.mem_range.mp hj
  rw [cox_de_boor_knot_vector N (q + 1) hit (by omega) _ _ _ (by omega), Nat.zero_add]

/-- C9: hodograph correctness.  For every degree `p ≥ 1`, control polygon with
`N ≥ p + 1` points, the knot vector of the filter and every `u` strictly inside a knot
interval `(knot[i], knot[i+1])` with `p ≤ i < N`, the function
`u ↦ compute_point(controlPoints, knots, p, u)` has at `u` the derivative
`compute_point(derive(controlPoints, knots, p), knots shifted by one entry, p - 1, u)`,
where `derive` returns `N - 1` points, the one of index `k` being
`p / (knot[k+p+1] - knot[k+1]) * (controlPoints[k+1] - controlPoints[k])`. -/
theorem hodograph (p N : ℕ) (hit : Bool) (input : List (Vector3d ℝ)) (hp : 1 ≤ p)
    (hN : p + 1 ≤ N) (hlen : input.length = N) (i : ℕ) (hi : p ≤ i) (hiN : i < N) (u : ℝ)
    (h1 : (knot_vector N p hit : List ℝ).getD i 0 < u)
    (h2 : u < (knot_vector N p hit : List ℝ).getD (i + 1) 0) :
    HasDerivAt (fun v => compute_point input (knot_vector N p hit) 0 p v)
        (compute_point (derive input (knot_vector N p hit) 0 p) (knot_vector N p hit) 1 (p - 1) u)
        u ∧
      (derive input (knot_vector N p hit : List ℝ) 0 p).length = N - 1 ∧
      ∀ k, k < N - 1 →
        (derive input (knot_vector N p hit : List ℝ) 0 p).getD k 0
          = ((p : ℝ) / ((knot_vector N p hit : List ℝ).getD (k + p + 1) 0
              - (knot_vector N p hit : List ℝ).getD (k + 1) 0)) •
            (input.getD (k + 1) 0 - input.getD k 0) := by
  obtain ⟨q, rfl⟩ : ∃ q, p = q + 1 := ⟨p - 1, by omega⟩
  rw [knot_vector_getD_fn N (q + 1) hit hN _ (by omega)] at h1 h2
  refine ⟨compute_point_hasDerivAt N q hit input hlen (by omega) i hi hiN u h1 h2, ?_, ?_⟩
  · rw [derive_length, hlen]
  · intro k hk
    rw [derive_getD _ _ _ _ _ (by omega)]
    simp only [access_at, Nat.zero_add]

/-- Witness of C9: the scenario of the specification, `u = 3/2` in the knot interval
`(knot[3], knot[4]) = (1, 2)`. -/
theorem hodograph_witness :
    HasDerivAt
        (fun v => compute_point
          [((0 : ℝ), (0 : ℝ), (0 : ℝ)), (1, 2, 0), (2, 2, 0), (3, 0, 0), (4, 1, 0)]
          (knot_vector 5 2 true) 0 2 v)
        (compute_point
          (derive [((0 : ℝ), (0 : ℝ), (0 : ℝ)), (1, 2, 0), (2, 2, 0), (3, 0, 0), (4, 1, 0)]
            (knot_vector 5 2 true) 0 2)
          (knot_vector 5 2 true) 1 (2 - 1) (3 / 2))
        (3 / 2) ∧
      (derive [((0 : ℝ), (0 : ℝ), (0 : ℝ)), (1, 2, 0), (2, 2, 0), (3, 0, 0), (4, 1, 0)]
        (knot_vector 5 2 true : List ℝ) 0 2).length = 5 - 1 ∧
      ∀ k, k < 5 - 1 →
        (derive [((0 : ℝ), (0 : ℝ), (0 : ℝ)), (1, 2, 0), (2, 2, 0), (3, 0, 0), (4, 1, 0)]
          (knot_vector 5 2 true : List ℝ) 0 2).getD k 0
          = (((2 : ℕ) : ℝ) / ((knot_vector 5 2 true : List ℝ).getD (k + 2 + 1) 0
              - (knot_vector 5 2 true : List ℝ).getD (k + 1) 0)) •
            (([((0 : ℝ), (0 : ℝ), (0 : ℝ)), (1, 2, 0), (2, 2, 0), (3, 0, 0), (4, 1, 0)]).getD
                (k + 1) 0
              - ([((0 : ℝ), (0 : ℝ), (0 : ℝ)), (1, 2, 0), (2, 2, 0), (3, 0, 0), (4, 1, 0)]).getD
                k 0) :=
  hodograph 2 5 true [(0, 0, 0), (1, 2, 0), (2, 2, 0), (3, 0, 0), (4, 1, 0)]
    (by decide) (by decide) rfl 3 (by decide) (by decide) (3 / 2)
    (by
      rw [knot_vector_getD 5 2 true (by decide) 3 (by decide)]
      have e : knot_value 5 2 true 3 = 1 := by decide
      rw [e]
      norm_num)
    (by
      rw [knot_vector_getD 5 2 true (by decide) (3 + 1) (by decide)]
      have e : knot_value 5 2 true (3 + 1) = 2 := by decide
      rw [e]
      norm_num)

end Hodograph


/-! ## The closest-point search: selection of the smallest distance -/

section Selection

variable {K : Type} [LinearOrderedField K]

theorem pick_smallest_cons (first c : K × K) (rest : List (K × K)) :
    pick_smallest first (c :: rest)
      = pick_smallest (if c.2 < first.2 then c else first) rest := rfl

theorem pick_smallest_spec (first : K × K) (rest : List (K × K)) :
    ∃ k, k < (first :: rest).length ∧
      (first :: rest).getD k (0, 0) = pick_smallest first rest ∧
      (∀ j, j < (first :: rest).length →
        (pick_smallest first rest).2 ≤ ((first :: rest).getD j (0, 0)).2) ∧
      (∀ j, j < k → (pick_smallest first rest).2 < ((first :: rest).getD j (0, 0)).2) := by
  induction rest generalizing first with
  | nil =>
    refine ⟨0, by simp, rfl, ?_, ?_⟩
    · intro j hj
      have : j = 0 := by simpa using hj
      subst this
      exact le_rfl
    · intro j hj
      exact absurd hj (Nat.not_lt_zero j)
  | cons c rest ih =>
    rw [pick_smallest_cons]
    by_cases hc : c.2 < first.2
    · rw [if_pos hc]
      obtain ⟨k, hk, hget, hmin, hfirst⟩ := ih c
      have hres : (pick_smallest c rest).2 ≤ c.2 := by
        have := hmin 0 (by simp)
        simpa using this
      refine ⟨k + 1, by simpa using hk, by simpa using hget, ?_, ?_⟩
      · intro j hj
        cases j with
        | zero => exact le_of_lt (lt_of_le_of_lt hres hc)
        | succ j => exact hmin j (by simpa using hj)
      · intro j hj
        cases j with
        | zero => exact lt_of_le_of_lt hres hc
        | succ j => exact hfirst j (by omega)
    · rw [if_neg hc]
      obtain ⟨k, hk, hget, hmin, hfirst⟩ := ih first
      have hres : (pick_smallest first rest).2 ≤ first.2 := by
        have := hmin 0 (by simp)
        simpa using this
      cases k with
      | zero =>
        refine ⟨0, by simp, ?_, ?_, ?_⟩
        · simpa using hget
        · intro j hj
          cases j with
          | zero => exact hres
          | succ j =>
            cases j with
            | zero => exact le_trans hres (not_lt.mp hc)
            | succ j => exact hmin (j + 1) (by simp at hj ⊢; omega)
        · intro j hj
          exact absurd hj (Nat.not_lt_zero j)
      | succ k =>
        refine ⟨k + 2, by simp at hk ⊢; omega, by simpa using hget, ?_, ?_⟩
        · intro j hj
          cases j with
          | zero => exact hres
          | succ j =>
            cases j with
            | zero => exact le_trans hres (not_lt.mp hc)
            | succ j => exact hmin (j + 1) (by simp at hj ⊢; omega)
        · intro j hj
          have h0 : (pick_smallest first rest).2 < first.2 := by
            have := hfirst 0 (by omega)
            simpa using this
          cases j with
          | zero => exact h0
          | succ j =>
            cases j with
            | zero => exact lt_of_lt_of_le h0 (not_lt.mp hc)
            | succ j => exact hfirst (j + 1) (by omega)

theorem min_element_spec (distances : List (K × K)) (h : distances ≠ []) :
    ∃ k, k < distances.length ∧
      min_element distances = some (distances.getD k (0, 0)) ∧
      (∀ j, j < distances.length →
        (distances.getD k (0, 0)).2 ≤ (distances.getD j (0, 0)).2) ∧
      (∀ j, j < k → (distances.getD k (0, 0)).2 < (distances.getD j (0, 0)).2) := by
  cases distances with
  | nil => exact absurd rfl h
  | cons first rest =>
    obtain ⟨k, hk, hget, hmin, hfirst⟩ := pick_smallest_spec first rest
    refine ⟨k, hk, ?_, ?_, ?_⟩
    · simp only [min_element]
      rw [hget]
    · rw [hget]
      exact hmin
    · rw [hget]
      exact hfirst

end Selection

/-! ## The closest-point search: the initial guess -/

section InitialGuess

variable {K : Type} [LinearOrderedField K]

theorem initial_guess_length (sqrt : K → K) (P : List (Vector3d K)) (knots : List K) (p : ℕ)
    (point : Vector3d K) :
    (initial_guess sqrt P knots p point).length = P.length - p := by
  simp [initial_guess]

theorem initial_guess_getD (sqrt : K → K) (P : List (Vector3d K)) (knots : List K) (p : ℕ)
    (point : Vector3d K) (s : ℕ) (hs : s < P.length - p) :
    (initial_guess sqrt P knots p point).getD s (0, 0)
      = (knots.getD (p + s) 0 + 1 / 2,
          norm sqrt (point - compute_point P knots 0 p
            (knots.getD (p + s) 0 + 1 / 2 * (knots.getD (p + 1) 0 - knots.getD p 0)))) := by
  unfold initial_guess
  rw [List.getD_eq_getElem?_getD, List.getElem?_map, List.getElem?_range hs]
  rfl

theorem knot_spacing (N p : ℕ) (hit : Bool) (hN : p + 1 ≤ N) (s : ℕ) (hs : s < N - p) :
    (knot_vector N p hit : List K).getD (p + s + 1) 0
      - (knot_vector N p hit : List K).getD (p + s) 0 = 1 := by
  rw [knot_vector_getD_fn N p hit hN _ (by omega), knot_vector_getD_fn N p hit hN _ (by omega),
    knot_fn_succ N p hit (p + s) (by omega) (by omega)]
  ring

theorem knot_delta (N p : ℕ) (hit : Bool) (hN : p + 1 ≤ N) :
    (knot_vector N p hit : List K).getD (p + 1) 0 - (knot_vector N p hit : List K).getD p 0 = 1 :=
  knot_spacing N p hit hN 0 (by omega)

/-- C18: for every valid input with a query point there are exactly `N - degree` seed
candidates, one for each knot interval `[knot[degree+s], knot[degree+s+1]]` with
`s < N - degree`.  The parameter recorded for seed `s`, `knot[degree+s] + 0.5`, is the
midpoint of that interval and equals the parameter `knot[degree+s] + 0.5 * delta` at
which the distance of the seed is evaluated, because `delta = knot[degree+1] -
knot[degree] = 1` and every knot spacing inside the domain is 1. -/
theorem initial_guess_midpoints (sqrt : K → K) (p N : ℕ) (hit : Bool)
    (input : List (Vector3d K)) (point : Vector3d K) (_hp : 1 ≤ p) (hN : p + 1 ≤ N)
    (hlen : input.length = N) :
    (initial_guess sqrt input (knot_vector N p hit) p point).length = N - p ∧
      (knot_vector N p hit : List K).getD (p + 1) 0 - (knot_vector N p hit : List K).getD p 0 = 1 ∧
      ∀ s, s < N - p →
        (knot_vector N p hit : List K).getD (p + s + 1) 0
            - (knot_vector N p hit : List K).getD (p + s) 0 = 1 ∧
          ((initial_guess sqrt input (knot_vector N p hit) p point).getD s (0, 0)).1
            = (knot_vector N p hit : List K).getD (p + s) 0 + 1 / 2 ∧
          ((initial_guess sqrt input (knot_vector N p hit) p point).getD s (0, 0)).1
            = ((knot_vector N p hit : List K).getD (p + s) 0
                + (knot_vector N p hit : List K).getD (p + s + 1) 0) / 2 ∧
          ((initial_guess sqrt input (knot_vector N p hit) p point).getD s (0, 0)).1
            = (knot_vector N p hit : List K).getD (p + s) 0
              + 1 / 2 * ((knot_vector N p hit : List K).getD (p + 1) 0
                - (knot_vector N p hit : List K).getD p 0) ∧
          ((initial_guess sqrt input (knot_vector N p hit) p point).getD s (0, 0)).2
            = norm sqrt (point - compute_point input (knot_vector N p hit) 0 p
                ((initial_guess sqrt input (knot_vector N p hit) p point).getD s (0, 0)).1) := by
  subst hlen
  refine ⟨initial_guess_length sqrt input _ p point, knot_delta input.length p hit hN, ?_⟩
  intro s hs
  have hsp := knot_spacing (K := K) input.length p hit hN s hs
  have hd := knot_delta (K := K) input.length p hit hN
  rw [initial_guess_getD sqrt input _ p point s hs, hd]
  refine ⟨hsp, rfl, ?_, ?_, ?_⟩
  · simp only
    linear_combination (-1 / 2 : K) * hsp
  · simp only
    ring
  · simp only [mul_one]

/-- Witness of C18: the scenario of the specification, degree 2, with the query point
(2, 3, 0). -/
theorem initial_guess_midpoints_witness :
    (initial_guess Rat.sqrt [((0 : ℚ), (0 : ℚ), (0 : ℚ)), (1, 2, 0), (2, 2, 0), (3, 0, 0), (4, 1, 0)]
        (knot_vector 5 2 true) 2 (2, 3, 0)).map Prod.fst = [1 / 2, 3 / 2, 5 / 2] ∧
      (initial_guess Rat.sqrt
        [((0 : ℚ), (0 : ℚ), (0 : ℚ)), (1, 2, 0), (2, 2, 0), (3, 0, 0), (4, 1, 0)]
        (knot_vector 5 2 true) 2 (2, 3, 0)).length = 5 - 2 :=
  ⟨by decide!,
    (initial_guess_midpoints Rat.sqrt 2 5 true
      [(0, 0, 0), (1, 2, 0), (2, 2, 0), (3, 0, 0), (4, 1, 0)] (2, 3, 0)
      (by decide) (by decide) rfl).1⟩

end InitialGuess

/-! ## The closest-point search for degree above 2 -/

section SubdivisionSearch

variable {K : Type} [LinearOrderedField K] [FloorRing K]

theorem getD_map_of_lt {α β : Type} (f : α → β) (l : List α) (j : ℕ) (a : α) (b : β)
    (hj : j < l.length) : (l.map f).getD j b = f (l.getD j a) := by
  rw [List.getD_eq_getElem?_getD, List.getD_eq_getElem?_getD, List.getElem?_map,
    List.getElem?_eq_getElem hj]
  rfl

theorem final_candidates_of_gt_two (sqrt : K → K) (P : List (Vector3d K)) (knots : List K)
    (p : ℕ) (point : Vector3d K) (hp : 2 < p) :
    final_candidates sqrt P knots p point
      = some ((initial_guess sqrt P knots p point).map
          (refine_subdivision sqrt P (derive P knots 0 p) knots p point)) := by
  unfold final_candidates
  rw [if_neg (by omega), if_pos (by omega)]

theorem closest_point_of_candidates (sqrt : K → K) (p : ℕ) (hit : Bool)
    (P : List (Vector3d K)) (point : Vector3d K) (distances : List (K × K))
    (hc : final_candidates sqrt P (knot_vector P.length p hit) p point = some distances)
    (hne : distances ≠ []) :
    ∃ k, k < distances.length ∧
      closest_point sqrt p hit P point
        = some ((distances.getD k (0, 0)).1, (distances.getD k (0, 0)).2,
            compute_point P (knot_vector P.length p hit) 0 p (distances.getD k (0, 0)).1) ∧
      (∀ j, j < distances.length →
        (distances.getD k (0, 0)).2 ≤ (distances.getD j (0, 0)).2) ∧
      (∀ j, j < k → (distances.getD k (0, 0)).2 < (distances.getD j (0, 0)).2) := by
  obtain ⟨k, hk, hmin, hle, hfirst⟩ := min_element_spec distances hne
  refine ⟨k, hk, ?_, hle, hfirst⟩
  unfold closest_point
  simp only [hc, hmin]

/-- What the selection of line 373 guarantees for degree above 2: the search reports
the distance from the query point to the curve point at the reported parameter, and
this distance is at most the distance from the query point to the curve point at the
final subdivision parameter of each of the `N - degree` segments.  Nothing relates it
to the sampled output points. -/
theorem subdivision_result_minimal_among_segments (sqrt : K → K) (p N : ℕ) (hit : Bool)
    (input : List (Vector3d K)) (point : Vector3d K) (hp : 2 < p) (hN : p + 1 ≤ N)
    (hlen : input.length = N) :
    ∃ us : List K, us.length = N - p ∧
      us = ((initial_guess sqrt input (knot_vector N p hit) p point).map
        (refine_subdivision sqrt input (derive input (knot_vector N p hit) 0 p)
          (knot_vector N p hit) p point)).map Prod.fst ∧
      ∃ k, k < N - p ∧
        closest_point sqrt p hit input point
          = some (us.getD k 0,
              norm sqrt (point - compute_point input (knot_vector N p hit) 0 p (us.getD k 0)),
              compute_point input (knot_vector N p hit) 0 p (us.getD k 0)) ∧
        ∀ j, j < N - p →
          norm sqrt (point - compute_point input (knot_vector N p hit) 0 p (us.getD k 0))
            ≤ norm sqrt (point - compute_point input (knot_vector N p hit) 0 p (us.getD j 0)) := by
  subst hlen
  have hlen2 : ((initial_guess sqrt input (knot_vector input.length p hit) p point).map
      (refine_subdivision sqrt input (derive input (knot_vector input.length p hit) 0 p)
        (knot_vector input.length p hit) p point)).length = input.length - p := by
    rw [List.length_map, initial_guess_length]
  have hne : (initial_guess sqrt input (knot_vector input.length p hit) p point).map
      (refine_subdivision sqrt input (derive input (knot_vector input.length p hit) 0 p)
        (knot_vector input.length p hit) p point) ≠ [] := by
    intro h
    rw [h] at hlen2
    simp at hlen2
    omega
  obtain ⟨k, hk, hcp, hle, _⟩ := closest_point_of_candidates sqrt p hit input point _
    (final_candidates_of_gt_two sqrt input _ p point hp) hne
  rw [hlen2] at hk hle
  have hfst : ∀ j, j < input.length - p →
      (((initial_guess sqrt input (knot_vector input.length p hit) p point).map
        (refine_subdivision sqrt input (derive input (knot_vector input.length p hit) 0 p)
          (knot_vector input.length p hit) p point)).map Prod.fst).getD j 0
        = (((initial_guess sqrt input (knot_vector input.length p hit) p point).map
          (refine_subdivision sqrt input (derive input (knot_vector input.length p hit) 0 p)
            (knot_vector input.length p hit) p point)).getD j (0, 0)).1 := by
    intro j hj
    rw [getD_map_of_lt Prod.fst _ j (0, 0) 0 (by rw [hlen2]; exact hj)]
  have hsnd : ∀ j, j < input.length - p →
      (((initial_guess sqrt input (knot_vector input.length p hit) p point).map
          (refine_subdivision sqrt input (derive input (knot_vector input.length p hit) 0 p)
            (knot_vector input.length p hit) p point)).getD j (0, 0)).2
        = norm sqrt (point - compute_point input (knot_vector input.length p hit) 0 p
            (((initial_guess sqrt input (knot_vector input.length p hit) p point).map
              (refine_subdivision sqrt input
                (derive input (knot_vector input.length p hit) 0 p)
                (knot_vector input.length p hit) p point)).getD j (0, 0)).1) := by
    intro j hj
    rw [getD_map_of_lt _ _ j (0, 0) (0, 0) (by rw [initial_guess_length]; exact hj)]
    rfl
  refine ⟨_, ?_, rfl, k, hk, ?_, ?_⟩
  · rw [List.length_map, hlen2]
  · rw [hcp, hfst k hk, ← hsnd k hk]
  · intro j hj
    rw [hfst k hk, hfst j hj, ← hsnd k hk, ← hsnd j hj]
    exact hle j hj

end SubdivisionSearch

/-! ## The closest-point search for degree 2 -/

section QuadraticSearch

variable {K : Type} [LinearOrderedField K]

theorem clamp_to_segment_mem (u_left u_right u : K) (h : u_left ≤ u_right) :
    u_left ≤ clamp_to_segment u_left u_right u ∧ clamp_to_segment u_left u_right u ≤ u_right := by
  unfold clamp_to_segment
  by_cases hc : u < u_left ∨ u > u_right
  · rw [if_pos hc]
    exact ⟨le_rfl, h⟩
  · rw [if_neg hc]
    constructor
    · exact not_lt.mp (fun h1 => hc (Or.inl h1))
    · exact not_lt.mp (fun h1 => hc (Or.inr h1))

theorem quadratic_candidates_mem_segment (sqrt : K → K) (a b c point : Vector3d K)
    (v_dash w_dash x_dash delta u_left u_right u : K) (h : u_left ≤ u_right)
    (r : K × K)
    (hr : r ∈ quadratic_candidates sqrt a b c point v_dash w_dash x_dash delta u_left u_right u) :
    u_left ≤ r.1 ∧ r.1 ≤ u_right ∧
      r.2 = norm sqrt (point - ((r.1 * r.1) • a + r.1 • b + c)) := by
  simp only [quadratic_candidates, quadratic_roots, List.map_cons, List.map_nil, List.mem_cons,
    List.mem_singleton, List.not_mem_nil, or_false] at hr
  rcases hr with hr | hr | hr | hr | hr
  · rw [hr]
    exact ⟨(clamp_to_segment_mem _ _ _ h).1, (clamp_to_segment_mem _ _ _ h).2, rfl⟩
  · rw [hr]
    exact ⟨(clamp_to_segment_mem _ _ _ h).1, (clamp_to_segment_mem _ _ _ h).2, rfl⟩
  · rw [hr]
    exact ⟨(clamp_to_segment_mem _ _ _ h).1, (clamp_to_segment_mem _ _ _ h).2, rfl⟩
  · rw [hr]
    exact ⟨le_rfl, h, rfl⟩
  · rw [hr]
    exact ⟨h, le_rfl, rfl⟩

theorem pick_smallest_mem (first : K × K) (rest : List (K × K)) :
    pick_smallest first rest ∈ first :: rest ∧
      ∀ c ∈ first :: rest, (pick_smallest first rest).2 ≤ c.2 := by
  obtain ⟨k, hk, hget, hmin, _⟩ := pick_smallest_spec first rest
  constructor
  · rw [← hget, List.getD_eq_getElem _ _ hk]
    exact List.getElem_mem _
  · intro c hc
    obtain ⟨j, hj, hjc⟩ := List.getElem_of_mem hc
    have := hmin j hj
    rw [List.getD_eq_getElem _ _ hj, hjc] at this
    exact this

theorem quadratic_candidates_bounds (sqrt : K → K) (a b c point : Vector3d K)
    (v_dash w_dash x_dash delta u_left u_right u : K) :
    (u_left, norm sqrt (point - ((u_left * u_left) • a + u_left • b + c)))
        ∈ quadratic_candidates sqrt a b c point v_dash w_dash x_dash delta u_left u_right u ∧
      (u_right, norm sqrt (point - ((u_right * u_right) • a + u_right • b + c)))
        ∈ quadratic_candidates sqrt a b c point v_dash w_dash x_dash delta u_left u_right u := by
  unfold quadratic_candidates
  simp only [List.map_cons, List.map_nil]
  constructor
  · exact List.mem_cons_of_mem _ (List.mem_cons_of_mem _ (List.mem_cons_of_mem _
      (List.mem_cons_self _ _)))
  · exact List.mem_cons_of_mem _ (List.mem_cons_of_mem _ (List.mem_cons_of_mem _
      (List.mem_cons_of_mem _ (List.mem_cons_self _ _))))

theorem quadratic_candidates_cons (sqrt : K → K) (a b c point : Vector3d K)
    (v_dash w_dash x_dash delta u_left u_right u : K) :
    ∃ first rest,
      quadratic_candidates sqrt a b c point v_dash w_dash x_dash delta u_left u_right u
        = first :: rest :=
  ⟨_, _, rfl⟩

theorem refine_quadratic_none [FloorRing K] (sqrt : K → K) (P : List (Vector3d K))
    (knots : List K) (degree : ℕ) (point : Vector3d K) (seed : K × K)
    (h : newton
        (4 * dot (quadratic_a P knots (segment_index knots degree seed.1))
          (quadratic_a P knots (segment_index knots degree seed.1)))
        (3 * (2 * dot (quadratic_a P knots (segment_index knots degree seed.1))
          (quadratic_b P knots (segment_index knots degree seed.1))))
        (2 * (2 * dot (quadratic_a P knots (segment_index knots degree seed.1))
            (quadratic_c P knots (segment_index knots degree seed.1) - point)
          + dot (quadratic_b P knots (segment_index knots degree seed.1))
            (quadratic_b P knots (segment_index knots degree seed.1))))
        (1 * (2 * dot (quadratic_b P knots (segment_index knots degree seed.1))
          (quadratic_c P knots (segment_index knots degree seed.1) - point)))
        (12 * dot (quadratic_a P knots (segment_index knots degree seed.1))
          (quadratic_a P knots (segment_index knots degree seed.1)))
        (6 * (2 * dot (quadratic_a P knots (segment_index knots degree seed.1))
          (quadratic_b P knots (segment_index knots degree seed.1))))
        (2 * (2 * dot (quadratic_a P knots (segment_index knots degree seed.1))
            (quadratic_c P knots (segment_index knots degree seed.1) - point)
          + dot (quadratic_b P knots (segment_index knots degree seed.1))
            (quadratic_b P knots (segment_index knots degree seed.1))))
        10 seed.1 = none) :
    refine_quadratic sqrt P knots degree point seed = none := by
  unfold refine_quadratic
  simp only [h]

theorem refine_quadratic_spec [FloorRing K] (sqrt : K → K) (P : List (Vector3d K))
    (knots : List K) (degree : ℕ) (point : Vector3d K) (seed r : K × K)
    (hdelta : 0 ≤ knots.getD (degree + 1) 0 - knots.getD degree 0)
    (h : refine_quadratic sqrt P knots degree point seed = some r) :
    seed.1 - 1 / 2 * (knots.getD (degree + 1) 0 - knots.getD degree 0) ≤ r.1 ∧
      r.1 ≤ seed.1 + 1 / 2 * (knots.getD (degree + 1) 0 - knots.getD degree 0) ∧
      r.2 = norm sqrt
        (point - quadratic_point P knots (segment_index knots degree seed.1) r.1) ∧
      r.2 ≤ norm sqrt (point - quadratic_point P knots (segment_index knots degree seed.1)
        (seed.1 - 1 / 2 * (knots.getD (degree + 1) 0 - knots.getD degree 0))) ∧
      r.2 ≤ norm sqrt (point - quadratic_point P knots (segment_index knots degree seed.1)
        (seed.1 + 1 / 2 * (knots.getD (degree + 1) 0 - knots.getD degree 0))) := by
  have hlr : seed.1 - 1 / 2 * (knots.getD (degree + 1) 0 - knots.getD degree 0)
      ≤ seed.1 + 1 / 2 * (knots.getD (degree + 1) 0 - knots.getD degree 0) := by linarith
  unfold refine_quadratic at h
  simp only at h
  split at h
  · exact absurd h (by simp)
  · rename_i u hu
    obtain ⟨first, rest, hfr⟩ := quadratic_candidates_cons sqrt
      (quadratic_a P knots (segment_index knots degree seed.1))
      (quadratic_b P knots (segment_index knots degree seed.1))
      (quadratic_c P knots (segment_index knots degree seed.1)) point
      (4 * dot (quadratic_a P knots (segment_index knots degree seed.1))
        (quadratic_a P knots (segment_index knots degree seed.1)))
      (3 * (2 * dot (quadratic_a P knots (segment_index knots degree seed.1))
        (quadratic_b P knots (segment_index knots degree seed.1))))
      (2 * (2 * dot (quadratic_a P knots (segment_index knots degree seed.1))
          (quadratic_c P knots (segment_index knots degree seed.1) - point)
        + dot (quadratic_b P knots (segment_index knots degree seed.1))
          (quadratic_b P knots (segment_index knots degree seed.1))))
      (knots.getD (degree + 1) 0 - knots.getD degree 0)
      (seed.1 - 1 / 2 * (knots.getD (degree + 1) 0 - knots.getD degree 0))
      (seed.1 + 1 / 2 * (knots.getD (degree + 1) 0 - knots.getD degree 0)) u
    rw [hfr] at h
    simp only [Option.some.injEq] at h
    have hmem := pick_smallest_mem first rest
    rw [h, ← hfr] at hmem
    obtain ⟨h1, h2, h3⟩ := quadratic_candidates_mem_segment sqrt _ _ _ _ _ _ _ _ _ _ _ hlr r hmem.1
    have hb := quadratic_candidates_bounds sqrt
      (quadratic_a P knots (segment_index knots degree seed.1))
      (quadratic_b P knots (segment_index knots degree seed.1))
      (quadratic_c P knots (segment_index knots degree seed.1)) point
      (4 * dot (quadratic_a P knots (segment_index knots degree seed.1))
        (quadratic_a P knots (segment_index knots degree seed.1)))
      (3 * (2 * dot (quadratic_a P knots (segment_index knots degree seed.1))
        (quadratic_b P knots (segment_index knots degree seed.1))))
      (2 * (2 * dot (quadratic_a P knots (segment_index knots degree seed.1))
          (quadratic_c P knots (segment_index knots degree seed.1) - point)
        + dot (quadratic_b P knots (segment_index knots degree seed.1))
          (quadratic_b P knots (segment_index knots degree seed.1))))
      (knots.getD (degree + 1) 0 - knots.getD degree 0)
      (seed.1 - 1 / 2 * (knots.getD (degree + 1) 0 - knots.getD degree 0))
      (seed.1 + 1 / 2 * (knots.getD (degree + 1) 0 - knots.getD degree 0)) u
    exact ⟨h1, h2, h3, hmem.2 _ hb.1, hmem.2 _ hb.2⟩

theorem collect_none {α : Type} (l : List (Option α)) (h : none ∈ l) : collect l = none := by
  induction l with
  | nil => exact absurd h (List.not_mem_nil _)
  | cons x rest ih =>
    cases x with
    | none => rfl
    | some x =>
      have hr : none ∈ rest := by
        rcases List.mem_cons.mp h with h1 | h1
        · exact absurd h1 (by simp)
        · exact h1
      simp only [collect, ih hr]

theorem final_candidates_none [FloorRing K] (sqrt : K → K) (P : List (Vector3d K))
    (knots : List K) (point : Vector3d K) (seed : K × K)
    (hs : seed ∈ initial_guess sqrt P knots 2 point)
    (h : refine_quadratic sqrt P knots 2 point seed = none) :
    final_candidates sqrt P knots 2 point = none := by
  unfold final_candidates
  rw [if_pos rfl]
  apply collect_none
  rw [← h]
  exact List.mem_map_of_mem _ hs

theorem knot_offset (N p : ℕ) (hit : Bool) (hN : p + 1 ≤ N) (s : ℕ) (hs : s ≤ N - p) :
    (knot_vector N p hit : List K).getD (p + s) 0
      = (knot_vector N p hit : List K).getD p 0 + (s : K) := by
  rw [knot_vector_getD N p hit hN _ (by omega), knot_vector_getD N p hit hN _ (by omega),
    ← Nat.cast_add]
  congr 1
  cases hit
  · simp [knot_value]
  · simp only [knot_value, if_true]
    omega

theorem segment_index_seed [FloorRing K] (N p : ℕ) (hit : Bool) (hN : p + 1 ≤ N) (s : ℕ)
    (hs : s < N - p) :
    segment_index (knot_vector N p hit : List K) p
        ((knot_vector N p hit : List K).getD (p + s) 0 + 1 / 2) = p + s := by
  unfold segment_index
  simp only
  rw [knot_delta N p hit hN, knot_offset N p hit hN s (by omega), div_one]
  have hf : Int.floor ((knot_vector N p hit : List K).getD p 0 + (s : K) + 1 / 2
      - (knot_vector N p hit : List K).getD p 0) = (s : ℤ) := by
    rw [Int.floor_eq_iff]
    constructor
    · push_cast
      linarith
    · push_cast
      linarith
  rw [hf, Int.toNat_ofNat]

/-- The positive part of C19 and C20: whenever the Newton iteration of segment `s` does
not divide by zero, the pair recorded for the segment has its parameter in
`[knot[2+s], knot[2+s+1]]`, its distance is the distance from the query point to
`a u² + b u + c` at that parameter, and this distance is at most the distances at
the two segment boundaries. -/
theorem refine_quadratic_in_segment [FloorRing K] (sqrt : K → K) (N : ℕ) (hit : Bool)
    (input : List (Vector3d K)) (point : Vector3d K) (hN : 3 ≤ N) (hlen : input.length = N)
    (s : ℕ) (hs : s < N - 2) (r : K × K)
    (h : refine_quadratic sqrt input (knot_vector N 2 hit) 2 point
      ((initial_guess sqrt input (knot_vector N 2 hit) 2 point).getD s (0, 0)) = some r) :
    (knot_vector N 2 hit : List K).getD (2 + s) 0 ≤ r.1 ∧
      r.1 ≤ (knot_vector N 2 hit : List K).getD (2 + s + 1) 0 ∧
      r.2 = norm sqrt (point - quadratic_point input (knot_vector N 2 hit) (2 + s) r.1) ∧
      r.2 ≤ norm sqrt (point - quadratic_point input (knot_vector N 2 hit) (2 + s)
        ((knot_vector N 2 hit : List K).getD (2 + s) 0)) ∧
      r.2 ≤ norm sqrt (point - quadratic_point input (knot_vector N 2 hit) (2 + s)
        ((knot_vector N 2 hit : List K).getD (2 + s + 1) 0)) := by
  subst hlen
  have hd := knot_delta (K := K) input.length 2 hit (by omega)
  have hsp := knot_spacing (K := K) input.length 2 hit (by omega) s hs
  rw [initial_guess_getD sqrt input _ 2 point s hs] at h
  have hspec := refine_quadratic_spec sqrt input _ 2 point _ r (by rw [hd]; exact zero_le_one) h
  simp only [hd, segment_index_seed input.length 2 hit (by omega) s hs] at hspec
  have e1 : (knot_vector input.length 2 hit : List K).getD (2 + s) 0 + 1 / 2 - 1 / 2 * 1
      = (knot_vector input.length 2 hit : List K).getD (2 + s) 0 := by ring
  have e2 : (knot_vector input.length 2 hit : List K).getD (2 + s) 0 + 1 / 2 + 1 / 2 * 1
      = (knot_vector input.length 2 hit : List K).getD (2 + s + 1) 0 := by
    linear_combination (-1 : K) * hsp
  rw [e1, e2] at hspec
  exact hspec

/-- C19, evaluation at a failing input: for three equal de Boor points (0,0,0),
degree 2, clamped ends and the query point (1,0,0) the coefficients `a`, `b` of the
segment vanish, so the first Newton step divides `first_derivative = 0` by
`second_derivative = 0`; the Newton root, and with it the parameter recorded for the
segment, has no value. -/
theorem newton_root_undefined_on_coincident_points :
    initial_guess Rat.sqrt [((0 : ℚ), (0 : ℚ), (0 : ℚ)), (0, 0, 0), (0, 0, 0)]
        (knot_vector 3 2 true) 2 (1, 0, 0) = [(1 / 2, 1)] ∧
      segment_index (knot_vector 3 2 true : List ℚ) 2 (1 / 2) = 2 ∧
      quadratic_a [((0 : ℚ), (0 : ℚ), (0 : ℚ)), (0, 0, 0), (0, 0, 0)] (knot_vector 3 2 true) 2
        = (0, 0, 0) ∧
      quadratic_b [((0 : ℚ), (0 : ℚ), (0 : ℚ)), (0, 0, 0), (0, 0, 0)] (knot_vector 3 2 true) 2
        = (0, 0, 0) ∧
      newton_step (0 : ℚ) 0 0 0 0 0 0 (1 / 2) = none ∧
      refine_quadratic Rat.sqrt [((0 : ℚ), (0 : ℚ), (0 : ℚ)), (0, 0, 0), (0, 0, 0)]
        (knot_vector 3 2 true) 2 (1, 0, 0) (1 / 2, 1) = none := by
  decide!

/-- C20, evaluation at a failing input: for three equal de Boor points (2,1,0),
degree 2, the uniform knot vector and the query point (2,1,3) both segment boundaries
`u_left = 2` and `u_right = 3` have the distance 3 to the query point, but the Newton
iteration divides zero by zero, so that no (parameter, distance) pair is recorded for
the segment. -/
theorem quadratic_selection_undefined_on_coincident_points :
    initial_guess Rat.sqrt [((2 : ℚ), (1 : ℚ), (0 : ℚ)), (2, 1, 0), (2, 1, 0)]
        (knot_vector 3 2 false) 2 (2, 1, 3) = [(5 / 2, 3)] ∧
      norm Rat.sqrt (((2 : ℚ), (1 : ℚ), (3 : ℚ))
        - quadratic_point [((2 : ℚ), (1 : ℚ), (0 : ℚ)), (2, 1, 0), (2, 1, 0)]
            (knot_vector 3 2 false) 2 2) = 3 ∧
      norm Rat.sqrt (((2 : ℚ), (1 : ℚ), (3 : ℚ))
        - quadratic_point [((2 : ℚ), (1 : ℚ), (0 : ℚ)), (2, 1, 0), (2, 1, 0)]
            (knot_vector 3 2 false) 2 3) = 3 ∧
      refine_quadratic Rat.sqrt [((2 : ℚ), (1 : ℚ), (0 : ℚ)), (2, 1, 0), (2, 1, 0)]
        (knot_vector 3 2 false) 2 (2, 1, 3) (5 / 2, 3) = none ∧
      final_candidates Rat.sqrt [((2 : ℚ), (1 : ℚ), (0 : ℚ)), (2, 1, 0), (2, 1, 0)]
        (knot_vector 3 2 false) 2 (2, 1, 3) = none := by
  decide!

/-- C12, evaluation at a failing input: for the de Boor points (0,0,0), (0,0,0),
(0,0,0), (1,0,0), degree 2, clamped ends and the query point (1,1,0) the Newton
iteration of the first segment divides zero by zero while the second segment is
refined to a pair; no smallest candidate is selected. -/
theorem closest_point_undefined_on_coincident_points :
    (initial_guess Rat.sqrt [((0 : ℚ), (0 : ℚ), (0 : ℚ)), (0, 0, 0), (0, 0, 0), (1, 0, 0)]
        (knot_vector 4 2 true) 2 (1, 1, 0)).map Prod.fst = [1 / 2, 3 / 2] ∧
      (initial_guess Rat.sqrt [((0 : ℚ), (0 : ℚ), (0 : ℚ)), (0, 0, 0), (0, 0, 0), (1, 0, 0)]
        (knot_vector 4 2 true) 2 (1, 1, 0)).map
        (fun seed =>
          (refine_quadratic Rat.sqrt
            [((0 : ℚ), (0 : ℚ), (0 : ℚ)), (0, 0, 0), (0, 0, 0), (1, 0, 0)]
            (knot_vector 4 2 true) 2 (1, 1, 0) seed).isSome) = [false, true] ∧
      final_candidates Rat.sqrt [((0 : ℚ), (0 : ℚ), (0 : ℚ)), (0, 0, 0), (0, 0, 0), (1, 0, 0)]
        (knot_vector 4 2 true) 2 (1, 1, 0) = none ∧
      closest_point Rat.sqrt 2 true
        [((0 : ℚ), (0 : ℚ), (0 : ℚ)), (0, 0, 0), (0, 0, 0), (1, 0, 0)] (1, 1, 0) = none := by
  decide!

end QuadraticSearch

/-! ## The frame of tangent, binormal and normal -/

section Frame

variable {K : Type} [LinearOrderedField K]

theorem dot_normalized (sqrt : K → K) (a : Vector3d K) (h0 : 0 < dot a a)
    (hs : sqrt (dot a a) * sqrt (dot a a) = dot a a) :
    dot (normalized sqrt a) (normalized sqrt a) = 1 := by
  have hne : sqrt (dot a a) ≠ 0 := by
    intro hz
    rw [hz, mul_zero] at hs
    exact absurd hs.symm (ne_of_gt h0)
  unfold normalized
  rw [if_pos h0]
  obtain ⟨x, y, z⟩ := a
  simp only [dot, Prod.smul_mk, smul_eq_mul] at hs hne ⊢
  generalize sqrt (x * x + y * y + z * z) = r at hs hne
  have hinv : r⁻¹ * r⁻¹ * (r * r) = 1 := by
    field_simp
  linear_combination hinv - (r⁻¹ * r⁻¹) * hs

theorem dot_cross_self (a b : Vector3d K) : dot a (cross a b) = 0 := by
  obtain ⟨x, y, z⟩ := a
  obtain ⟨x1, y1, z1⟩ := b
  simp only [dot, cross]
  ring

theorem dot_cross_cross (a b : Vector3d K) :
    dot (cross a b) (cross a b) = dot a a * dot b b - dot a b * dot a b := by
  obtain ⟨x, y, z⟩ := a
  obtain ⟨x1, y1, z1⟩ := b
  simp only [dot, cross]
  ring

theorem dot_normalized_right (sqrt : K → K) (a b : Vector3d K) (h : dot a b = 0) :
    dot a (normalized sqrt b) = 0 := by
  unfold normalized
  split_ifs
  · obtain ⟨x, y, z⟩ := a
    obtain ⟨x1, y1, z1⟩ := b
    simp only [dot, Prod.smul_mk, smul_eq_mul] at h ⊢
    linear_combination (sqrt (x1 * x1 + y1 * y1 + z1 * z1))⁻¹ * h
  · exact h

theorem sampled_frame_getD (sqrt : K → K) (p M : ℕ) (hit : Bool) (input : List (Vector3d K))
    (i : ℕ) (hi : i < M) :
    ((((List.range M).map (arc_position (knot_vector input.length p hit) p input.length M)).map
        fun u => normalized sqrt
          (compute_point (derive input (knot_vector input.length p hit) 0 p)
            (knot_vector input.length p hit) 1 (p - 1) u)).getD i 0
        = normalized sqrt (sample_first_derivative p M hit input i)) ∧
      ((((List.range M).map (arc_position (knot_vector input.length p hit) p input.length M)).map
        fun u => normalized sqrt
          (cross
            (normalized sqrt
              (compute_point (derive input (knot_vector input.length p hit) 0 p)
                (knot_vector input.length p hit) 1 (p - 1) u))
            (compute_point
              (derive (derive input (knot_vector input.length p hit) 0 p)
                (knot_vector input.length p hit) 1 (p - 1))
              (knot_vector input.length p hit) 2 (p - 2) u))).getD i 0
        = normalized sqrt (sample_binormal_direction sqrt p M hit input i)) := by
  have hlen : i < ((List.range M).map
      (arc_position (knot_vector input.length p hit : List K) p input.length M)).length := by
    simpa using hi
  have hu : ((List.range M).map
      (arc_position (knot_vector input.length p hit : List K) p input.length M)).getD i 0
      = arc_position (knot_vector input.length p hit) p input.length M i := by
    rw [getD_map_of_lt _ _ i 0 0 (by simpa using hi)]
    congr 1
    rw [List.getD_eq_getElem?_getD, List.getElem?_range hi]
    rfl
  constructor
  · rw [getD_map_of_lt _ _ i 0 0 hlen, hu]
    rfl
  · rw [getD_map_of_lt _ _ i 0 0 hlen, hu]
    rfl

/-- C13, as the code behaves: for every valid input with degree above 2 and every output
point `i` at which the value `T` of the first-derivative curve is not zero, the vector
product `B` of the tangent with the value of the second-derivative curve is not zero,
and the square root is exact at the squared lengths of `T` and `B` (and at 1), the
tangent, the binormal and the normal computed for the output point have Euclidean
length 1. -/
theorem frame_unit_vectors (sqrt : K → K) (p N M : ℕ) (flag : Int)
    (input : List (Vector3d K)) (hp : 2 < p) (hN : p + 1 ≤ N) (hM : p + 1 ≤ M)
    (hlen : input.length = N) (i : ℕ) (hi : i < M) (h1 : sqrt 1 = 1)
    (hT : 0 < dot (sample_first_derivative p M (decide (flag ≠ 0)) input i)
      (sample_first_derivative p M (decide (flag ≠ 0)) input i))
    (hsT : sqrt (dot (sample_first_derivative p M (decide (flag ≠ 0)) input i)
        (sample_first_derivative p M (decide (flag ≠ 0)) input i))
      * sqrt (dot (sample_first_derivative p M (decide (flag ≠ 0)) input i)
        (sample_first_derivative p M (decide (flag ≠ 0)) input i))
      = dot (sample_first_derivative p M (decide (flag ≠ 0)) input i)
        (sample_first_derivative p M (decide (flag ≠ 0)) input i))
    (hB : 0 < dot (sample_binormal_direction sqrt p M (decide (flag ≠ 0)) input i)
      (sample_binormal_direction sqrt p M (decide (flag ≠ 0)) input i))
    (hsB : sqrt (dot (sample_binormal_direction sqrt p M (decide (flag ≠ 0)) input i)
        (sample_binormal_direction sqrt p M (decide (flag ≠ 0)) input i))
      * sqrt (dot (sample_binormal_direction sqrt p M (decide (flag ≠ 0)) input i)
        (sample_binormal_direction sqrt p M (decide (flag ≠ 0)) input i))
      = dot (sample_binormal_direction sqrt p M (decide (flag ≠ 0)) input i)
        (sample_binormal_direction sqrt p M (decide (flag ≠ 0)) input i)) :
    ∃ (out : PolyData K) (tangent binormal normal : List (Vector3d K)),
      RequestData sqrt ⟨(p : Int), (M : Int), flag⟩ input = (1, some out) ∧
      out.tangent = some tangent ∧ out.binormal = some binormal ∧ out.normal = some normal ∧
      norm sqrt (tangent.getD i 0) = 1 ∧ norm sqrt (binormal.getD i 0) = 1 ∧
      norm sqrt (normal.getD i 0) = 1 := by
  have hvalid : RequestData sqrt ⟨(p : Int), (M : Int), flag⟩ input
      = (1, some (sampled_output sqrt p M (decide (flag ≠ 0)) input)) := by
    rw [RequestData_valid sqrt _ input (by simp only; omega) (by simp only; omega)
      (by simp only; omega)]
    simp
  obtain ⟨ht, hb⟩ := sampled_frame_getD sqrt p M (decide (flag ≠ 0)) input i hi
  have hdt := dot_normalized sqrt _ hT hsT
  have hdb := dot_normalized sqrt _ hB hsB
  have horth : dot (normalized sqrt (sample_first_derivative p M (decide (flag ≠ 0)) input i))
      (normalized sqrt (sample_binormal_direction sqrt p M (decide (flag ≠ 0)) input i)) = 0 :=
    dot_normalized_right sqrt _ _ (dot_cross_self _ _)
  refine ⟨sampled_output sqrt p M (decide (flag ≠ 0)) input, _, _, _, hvalid, if_pos hp,
    if_pos hp, if_pos hp, ?_, ?_, ?_⟩
  · rw [ht, norm, hdt, h1]
  · rw [hb, norm, hdb, h1]
  · rw [List.zip_map', List.map_map, getD_map_of_lt _ _ i 0 0 (by simpa using hi)]
    have hu : ((List.range M).map
        (arc_position (knot_vector input.length p (decide (flag ≠ 0)) : List K)
          p input.length M)).getD i 0
        = arc_position (knot_vector input.length p (decide (flag ≠ 0))) p input.length M i := by
      rw [getD_map_of_lt _ _ i 0 0 (by simpa using hi)]
      congr 1
      rw [List.getD_eq_getElem?_getD, List.getElem?_range hi]
      rfl
    rw [hu]
    show sqrt (dot
      (cross (normalized sqrt (sample_first_derivative p M (decide (flag ≠ 0)) input i))
        (normalized sqrt (sample_binormal_direction sqrt p M (decide (flag ≠ 0)) input i)))
      (cross (normalized sqrt (sample_first_derivative p M (decide (flag ≠ 0)) input i))
        (normalized sqrt (sample_binormal_direction sqrt p M (decide (flag ≠ 0)) input i))))
      = 1
    rw [dot_cross_cross, hdt, hdb, horth]
    norm_num
    exact h1

/-- Witness of C13 (amended): the de Boor points (0,0,0), (1,0,0), (1,1,0), (0,1,0),
degree 3, clamped ends, four output points, output point 0; there the first derivative
is (3,0,0) and the vector product with the second derivative is (0,0,6). -/
theorem frame_unit_vectors_witness :
    ∃ (out : PolyData ℚ) (tangent binormal normal : List (Vector3d ℚ)),
      RequestData Rat.sqrt ⟨((3 : ℕ) : Int), ((4 : ℕ) : Int), 1⟩
        [(0, 0, 0), (1, 0, 0), (1, 1, 0), (0, 1, 0)] = (1, some out) ∧
      out.tangent = some tangent ∧ out.binormal = some binormal ∧ out.normal = some normal ∧
      norm Rat.sqrt (tangent.getD 0 0) = 1 ∧ norm Rat.sqrt (binormal.getD 0 0) = 1 ∧
      norm Rat.sqrt (normal.getD 0 0) = 1 :=
  frame_unit_vectors Rat.sqrt 3 4 4 1 [(0, 0, 0), (1, 0, 0), (1, 1, 0), (0, 1, 0)]
    (by decide) (by decide) (by decide) rfl 0 (by decide) (by decide!) (by decide!)
    (by decide!) (by decide!) (by decide!)

/-- C13, counterexample: for the collinear de Boor points (0,0,0), (1,0,0), (2,0,0),
(3,0,0), degree 3, clamped ends and four output points the second-derivative curve
vanishes; at every output point the tangent is (1,0,0) but the binormal and the normal
are the zero vector, of length 0 and not 1. -/
theorem frame_not_unit_on_straight_line :
    (RequestData Rat.sqrt ⟨3, 4, 1⟩
        [((0 : ℚ), (0 : ℚ), (0 : ℚ)), (1, 0, 0), (2, 0, 0), (3, 0, 0)]).2.map
        (fun out => out.tangent)
      = some (some [(1, 0, 0), (1, 0, 0), (1, 0, 0), (1, 0, 0)]) ∧
    (RequestData Rat.sqrt ⟨3, 4, 1⟩
        [((0 : ℚ), (0 : ℚ), (0 : ℚ)), (1, 0, 0), (2, 0, 0), (3, 0, 0)]).2.map
        (fun out => out.binormal)
      = some (some [(0, 0, 0), (0, 0, 0), (0, 0, 0), (0, 0, 0)]) ∧
    (RequestData Rat.sqrt ⟨3, 4, 1⟩
        [((0 : ℚ), (0 : ℚ), (0 : ℚ)), (1, 0, 0), (2, 0, 0), (3, 0, 0)]).2.map
        (fun out => out.normal)
      = some (some [(0, 0, 0), (0, 0, 0), (0, 0, 0), (0, 0, 0)]) ∧
    norm Rat.sqrt (((0 : ℚ), (0 : ℚ), (0 : ℚ))) = 0 ∧
    ¬ (norm Rat.sqrt (((0 : ℚ), (0 : ℚ), (0 : ℚ))) = 1) := by
  decide!

end Frame

/-! ## Partition of unity and non-negativity of the basis functions -/

section BasisProperties

variable {K : Type} [LinearOrderedField K]

/-- C14: partition of unity on the domain of the curve.  For every `p ≥ 1`, `N ≥ p + 1`,
the knot vector of the filter (clamped or uniform) and every `u` with
`knot[p] ≤ u < knot[N]`, the sum over `j = 0, ..., N - 1` of
`basis_function(knots, j, p, u)` is 1. -/
theorem basis_functions_sum_to_one (p N : ℕ) (hit : Bool) (u : K) (_hp : 1 ≤ p)
    (hN : p + 1 ≤ N) (h1 : (knot_vector N p hit : List K).getD p 0 ≤ u)
    (h2 : u < (knot_vector N p hit : List K).getD N 0) :
    ∑ j in Finset.range N, basis_function (knot_vector N p hit : List K) 0 j p u = 1 :=
  basis_function_sum N p hit hN u h1 h2

/-- Witness of C14: five de Boor points, degree 3, uniform knots, `u = 7/2`; the basis
functions are 1/48, 23/48, 23/48, 1/48 and 0. -/
theorem basis_functions_sum_to_one_witness :
    (List.range 5).map (fun j => basis_function (knot_vector 5 3 false : List ℚ) 0 j 3 (7 / 2))
        = [1 / 48, 23 / 48, 23 / 48, 1 / 48, 0] ∧
      ∑ j in Finset.range 5, basis_function (knot_vector 5 3 false : List ℚ) 0 j 3 (7 / 2) = 1 :=
  ⟨by decide!,
    basis_functions_sum_to_one 3 5 false (7 / 2) (by decide) (by decide)
      (by decide!) (by decide!)⟩

theorem cox_de_boor_nonneg_support (t : ℕ → K) (i d : ℕ) (u : K)
    (hmono : ∀ a b, i ≤ a → a ≤ b → b ≤ i + d + 1 → t a ≤ t b) :
    0 ≤ cox_de_boor t i d u ∧ (u < t i → cox_de_boor t i d u = 0) ∧
      (t (i + d + 1) ≤ u → cox_de_boor t i d u = 0) := by
  induction d generalizing i with
  | zero =>
    simp only [cox_de_boor]
    refine ⟨?_, ?_, ?_⟩
    · split_ifs
      · exact zero_le_one
      · exact le_rfl
    · intro h
      exact if_neg (fun hc => absurd hc.1 (not_le.mpr h))
    · intro h
      exact if_neg (fun hc => absurd hc.2 (not_lt.mpr h))
  | succ d ih =>
    obtain ⟨hA0, hAl, hAr⟩ := ih i (fun a b h1 h2 h3 => hmono a b h1 h2 (by omega))
    obtain ⟨hB0, hBl, hBr⟩ := ih (i + 1) (fun a b h1 h2 h3 => hmono a b (by omega) h2 (by omega))
    have e1 : i + (d + 1) + 1 = i + 1 + d + 1 := by omega
    have e2 : i + (d + 1) = i + d + 1 := by omega
    simp only [cox_de_boor]
    refine ⟨?_, ?_, ?_⟩
    · apply add_nonneg
      · by_cases hu : u < t i
        · rw [hAl hu, mul_zero]
        · exact mul_nonneg (div_nonneg (sub_nonneg.mpr (not_lt.mp hu))
            (sub_nonneg.mpr (hmono i _ le_rfl (by omega) (by omega)))) hA0
      · by_cases hu : t (i + 1 + d + 1) ≤ u
        · rw [hBr hu, mul_zero]
        · rw [e1]
          exact mul_nonneg (div_nonneg (sub_nonneg.mpr (le_of_lt (not_le.mp hu)))
            (sub_nonneg.mpr (hmono (i + 1) _ (by omega) (by omega) (by omega)))) hB0
    · intro hu
      rw [hAl hu, hBl (lt_of_lt_of_le hu (hmono i (i + 1) le_rfl (by omega) (by omega))),
        mul_zero, mul_zero, add_zero]
    · intro hu
      have hu1 : t (i + 1 + d + 1) ≤ u := by
        have e3 : i + (d + 1) + 1 = i + 1 + d + 1 := by omega
        rw [← e3]
        exact hu
      rw [hAr (le_trans (hmono (i + d + 1) (i + 1 + d + 1) (by omega) (by omega) (by omega)) hu1),
        hBr hu1, mul_zero, mul_zero, add_zero]

theorem basis_function_nonneg_of_sorted (knots : List K) (first i d : ℕ) (u : K)
    (hsorted : ∀ a b, a ≤ b → b < knots.length → knots.getD a 0 ≤ knots.getD b 0)
    (hrange : first + i + d + 1 < knots.length) :
    0 ≤ basis_function knots first i d u := by
  rw [basis_function_eq]
  exact (cox_de_boor_nonneg_support (fun k => knots.getD k 0) (first + i) d u
    (fun a b _ h2 h3 => hsorted a b h2 (by omega))).1

theorem knot_vector_sorted (N p : ℕ) (hit : Bool) (hN : p + 1 ≤ N) (a b : ℕ) (hab : a ≤ b)
    (hb : b < (knot_vector N p hit : List K).length) :
    (knot_vector N p hit : List K).getD a 0 ≤ (knot_vector N p hit : List K).getD b 0 := by
  rw [knot_vector_length] at hb
  rw [knot_vector_getD N p hit hN a (by omega), knot_vector_getD N p hit hN b (by omega)]
  exact knot_value_cast_mono N p hit hab

/-- C15: for every non-decreasing knot vector and every index `i`, degree `d` and
parameter `u` for which the knot reads are in range, `basis_function(knots, i, d, u)`
is not negative.  Together with the partition of unity: for the knot vector of the
filter and `knot[p] ≤ u < knot[N]` the point `compute_point(..., u)` is the combination
of the de Boor points with the weights `basis_function(knots, j, p, u)`, which are not
negative and sum to 1. -/
theorem basis_function_nonneg (knots : List K) (first i d : ℕ) (u : K)
    (hsorted : ∀ a b, a ≤ b → b < knots.length → knots.getD a 0 ≤ knots.getD b 0)
    (hrange : first + i + d + 1 < knots.length) :
    0 ≤ basis_function knots first i d u ∧
      ∀ (p N : ℕ) (hit : Bool) (input : List (Vector3d K)) (v : K),
        1 ≤ p → p + 1 ≤ N → input.length = N →
        (knot_vector N p hit : List K).getD p 0 ≤ v →
        v < (knot_vector N p hit : List K).getD N 0 →
        compute_point input (knot_vector N p hit) 0 p v
            = ∑ j in Finset.range N,
                basis_function (knot_vector N p hit : List K) 0 j p v • input.getD j 0 ∧
          (∀ j, j < N → 0 ≤ basis_function (knot_vector N p hit : List K) 0 j p v) ∧
          ∑ j in Finset.range N, basis_function (knot_vector N p hit : List K) 0 j p v = 1 := by
  refine ⟨basis_function_nonneg_of_sorted knots first i d u hsorted hrange, ?_⟩
  intro p N hit input v _ hN hlen h1 h2
  refine ⟨?_, ?_, basis_function_sum N p hit hN v h1 h2⟩
  · subst hlen
    rw [compute_point_eq_sum _ _ _ _ _ (by rw [Nat.zero_add]; exact h2)]
    apply Finset.sum_congr rfl
    intro j _
    rw [basis_function_eq]
  · intro j hj
    exact basis_function_nonneg_of_sorted _ 0 j p v (knot_vector_sorted N p hit hN)
      (by rw [knot_vector_length]; omega)

/-- Witness of C15: the clamped knot vector `[0, 0, 0, 1, 2, 3, 3, 3]`, index 1,
degree 2, `u = 1/2`. -/
theorem basis_function_nonneg_witness :
    basis_function (knot_vector 5 2 true : List ℚ) 0 1 2 (1 / 2) = 5 / 8 ∧
      0 ≤ basis_function (knot_vector 5 2 true : List ℚ) 0 1 2 (1 / 2) :=
  ⟨by decide!,
    (basis_function_nonneg (knot_vector 5 2 true : List ℚ) 0 1 2 (1 / 2)
      (knot_vector_sorted 5 2 true (by decide)) (by decide)).1⟩

end BasisProperties

/-! ## Knot reads and the divisors of `derive` -/

section Reads

variable {K : Type} [LinearOrderedField K]

theorem basis_function_reads_le (first i d k : ℕ) (hk : k ∈ basis_function_reads first i d) :
    k ≤ first + i + d + 1 := by
  induction d generalizing i with
  | zero =>
    simp only [basis_function_reads, List.mem_cons, List.mem_singleton, List.not_mem_nil,
      or_false] at hk
    omega
  | succ d ih =>
    simp only [basis_function_reads, List.mem_append, List.mem_cons, List.mem_singleton,
      List.not_mem_nil, or_false] at hk
    rcases hk with (h | h) | h
    · have := ih i h
      omega
    · have := ih (i + 1) h
      omega
    · omega

theorem compute_point_reads_le (n first d k : ℕ)
    (hk : k ∈ compute_point_reads n first d) : k ≤ first + n + d := by
  simp only [compute_point_reads, List.mem_cons, List.mem_flatMap, List.mem_range] at hk
  rcases hk with h | ⟨j, hj, h⟩
  · omega
  · have := basis_function_reads_le first j d k h
    omega

/-- The list of reads is complete: `basis_function` has the same value on two knot
vectors that agree at the listed indices. -/
theorem basis_function_congr_reads (knots knots2 : List K) (first i d : ℕ) (u : K)
    (h : ∀ k ∈ basis_function_reads first i d, knots.getD k 0 = knots2.getD k 0) :
    basis_function knots first i d u = basis_function knots2 first i d u := by
  induction d generalizing i with
  | zero =>
    have e1 := h (first + i) (by simp [basis_function_reads])
    have e2 := h (first + (i + 1)) (by simp [basis_function_reads])
    simp only [basis_function, access_at, e1, e2]
  | succ d ih =>
    have h1 := ih i (fun k hk => h k (by simp [basis_function_reads, hk]))
    have h2 := ih (i + 1) (fun k hk => h k (by simp [basis_function_reads, hk]))
    have e1 := h (first + (i + (d + 1))) (by simp [basis_function_reads])
    have e2 := h (first + i) (by simp [basis_function_reads])
    have e3 := h (first + (i + (d + 1) + 1)) (by simp [basis_function_reads])
    have e4 := h (first + (i + 1)) (by simp [basis_function_reads])
    simp only [basis_function, access_at, h1, h2, e1, e2, e3, e4]

/-- C16: for every valid input (`p ≥ 1`, `N ≥ p + 1`) every knot read of the sampling
stays inside the index range `[0, N + p]` of the knot vector: the reads of
`compute_point` and `basis_function` on the curve (offset 0, `N` points, degree `p`),
on the first-derivative curve (offset 1, `N - 1` points, degree `p - 1`) and, for
`p > 2`, on the second-derivative curve (offset 2, `N - 2` points, degree `p - 2`),
the read of `knot[number of points]` for the upper-bound clamp included. -/
theorem knot_reads_in_range (p N : ℕ) (hit : Bool) (hp : 1 ≤ p) (hN : p + 1 ≤ N) :
    (∀ k ∈ compute_point_reads N 0 p,
        k ≤ N + p ∧ k < (knot_vector N p hit : List K).length) ∧
      (∀ k ∈ compute_point_reads (N - 1) 1 (p - 1),
        k ≤ N + p ∧ k < (knot_vector N p hit : List K).length) ∧
      (2 < p → ∀ k ∈ compute_point_reads (N - 2) 2 (p - 2),
        k ≤ N + p ∧ k < (knot_vector N p hit : List K).length) ∧
      (N + 0 ∈ compute_point_reads N 0 p ∧ 1 + (N - 1) ∈ compute_point_reads (N - 1) 1 (p - 1) ∧
        2 + (N - 2) ∈ compute_point_reads (N - 2) 2 (p - 2)) := by
  rw [knot_vector_length]
  refine ⟨?_, ?_, ?_, ?_⟩
  · intro k hk
    have := compute_point_reads_le N 0 p k hk
    omega
  · intro k hk
    have := compute_point_reads_le (N - 1) 1 (p - 1) k hk
    omega
  · intro h2 k hk
    have := compute_point_reads_le (N - 2) 2 (p - 2) k hk
    omega
  · simp [compute_point_reads]

/-- Witness of C16: five de Boor points, degree 3; the largest index read on the curve
is `8 = N + p`. -/
theorem knot_reads_in_range_witness :
    (compute_point_reads 5 0 3).max? = some 8 ∧
      (compute_point_reads (5 - 1) 1 (3 - 1)).max? = some 7 ∧
      (compute_point_reads (5 - 2) 2 (3 - 2)).max? = some 6 ∧
      ∀ k ∈ compute_point_reads 5 0 3,
        k ≤ 5 + 3 ∧ k < (knot_vector 5 3 true : List ℚ).length :=
  ⟨by decide!, by decide!, by decide!,
    (knot_reads_in_range (K := ℚ) 3 5 true (by decide) (by decide)).1⟩

/-- C17: for every valid input (`p ≥ 1`, `N ≥ p + 1`, either flag) every divisor
`knot[k+p+1] - knot[k+1]` of the call `derive(controlPoints, knots, p)` for the first
derivative is not zero, and for `p ≥ 2` every divisor of the call
`derive(firstDerivative, knots shifted by one, p - 1)` for the second derivative is
not zero.  For `p = 1` the divisors of the second call are zero; its result does not
enter the output, which has no frame for degree up to 2. -/
theorem derive_divisors_nonzero (p N : ℕ) (hit : Bool) (hp : 1 ≤ p) (hN : p + 1 ≤ N) :
    (∀ k, k < N - 1 →
        access_at (knot_vector N p hit : List K) 0 (k + p + 1)
          - access_at (knot_vector N p hit : List K) 0 (k + 1) ≠ 0) ∧
      (2 ≤ p → ∀ k, k < N - 1 - 1 →
        access_at (knot_vector N p hit : List K) 1 (k + (p - 1) + 1)
          - access_at (knot_vector N p hit : List K) 1 (k + 1) ≠ 0) ∧
      (p = 1 → ∀ k,
        access_at (knot_vector N p hit : List K) 1 (k + (p - 1) + 1)
          - access_at (knot_vector N p hit : List K) 1 (k + 1) = 0) ∧
      (p ≤ 2 → ∀ (sqrt : K → K) (M : ℕ) (flag : Int) (input : List (Vector3d K)),
        p + 1 ≤ M → input.length = N →
        ∃ out : PolyData K,
          RequestData sqrt ⟨(p : Int), (M : Int), flag⟩ input = (1, some out) ∧
          out.tangent = none ∧ out.binormal = none ∧ out.normal = none) := by
  refine ⟨?_, ?_, ?_, ?_⟩
  · intro k hk
    simp only [access_at]
    rw [knot_vector_getD N p hit hN _ (by omega), knot_vector_getD N p hit hN _ (by omega)]
    have hlt : knot_value N p hit (0 + (k + 1)) < knot_value N p hit (0 + (k + p + 1)) := by
      cases hit
      · simp only [knot_value, Bool.false_eq_true, if_false]
        omega
      · simp only [knot_value, if_true]
        omega
    exact ne_of_gt (sub_pos.mpr (Nat.cast_lt.mpr hlt))
  · intro h2 k hk
    simp only [access_at]
    rw [knot_vector_getD N p hit hN _ (by omega), knot_vector_getD N p hit hN _ (by omega)]
    have hlt : knot_value N p hit (1 + (k + 1)) < knot_value N p hit (1 + (k + (p - 1) + 1)) := by
      cases hit
      · simp only [knot_value, Bool.false_eq_true, if_false]
        omega
      · simp only [knot_value, if_true]
        omega
    exact ne_of_gt (sub_pos.mpr (Nat.cast_lt.mpr hlt))
  · intro h1 k
    subst h1
    simp
  · intro h2 sqrt M flag input hM hlen
    refine ⟨sampled_output sqrt p M (decide (flag ≠ 0)) input, ?_, if_neg (by omega),
      if_neg (by omega), if_neg (by omega)⟩
    rw [RequestData_valid sqrt _ input (by simp only; omega) (by simp only; omega)
      (by simp only; omega)]
    simp

/-- Witness of C17: five de Boor points, degree 2, clamped ends; the divisors of the
first call are 1, 2, 2, 1 and those of the second call are 1, 1, 1. -/
theorem derive_divisors_nonzero_witness :
    (List.range (5 - 1)).map (fun k =>
        access_at (knot_vector 5 2 true : List ℚ) 0 (k + 2 + 1)
          - access_at (knot_vector 5 2 true : List ℚ) 0 (k + 1)) = [1, 2, 2, 1] ∧
      (List.range (5 - 1 - 1)).map (fun k =>
        access_at (knot_vector 5 2 true : List ℚ) 1 (k + (2 - 1) + 1)
          - access_at (knot_vector 5 2 true : List ℚ) 1 (k + 1)) = [1, 1, 1] ∧
      ∀ k, k < 5 - 1 →
        access_at (knot_vector 5 2 true : List ℚ) 0 (k + 2 + 1)
          - access_at (knot_vector 5 2 true : List ℚ) 0 (k + 1) ≠ 0 :=
  ⟨by decide!, by decide!,
    (derive_divisors_nonzero (K := ℚ) 2 5 true (by decide) (by decide)).1⟩

end Reads

/-! ## The subdivision loop -/

section SubdivisionLoop

variable {K : Type} [LinearOrderedField K]

theorem refine_subdivision_eq (sqrt : K → K) (P P' : List (Vector3d K)) (knots : List K)
    (p : ℕ) (point : Vector3d K) (seed : K × K) :
    refine_subdivision sqrt P P' knots p point seed
      = ((subdivision_loop P P' knots p point 10 (subdivision_start knots p seed.1)).u,
          norm sqrt (point - compute_point P knots 0 p
            (subdivision_loop P P' knots p point 10 (subdivision_start knots p seed.1)).u)) :=
  rfl

theorem subdivision_step_good_match (P P' : List (Vector3d K)) (knots : List K) (p : ℕ)
    (point : Vector3d K) (s : Subdivision K) :
    (subdivision_step P P' knots p point s).good_match = true
      ↔ |subdivision_direction P P' knots p point s.u| < good_match_tolerance
          ∨ s.good_match = true := by
  unfold subdivision_step subdivision_direction
  simp only
  split_ifs with h
  · simp [h]
  · simp [h]

theorem subdivision_step_bounds (P P' : List (Vector3d K)) (knots : List K) (p : ℕ)
    (point : Vector3d K) (s : Subdivision K) (a b : K)
    (h1 : a ≤ s.u_left) (h2 : s.u_left ≤ s.u_right) (h3 : s.u_right ≤ b)
    (hu : s.u = (s.u_left + s.u_right) / 2) :
    a ≤ (subdivision_step P P' knots p point s).u_left ∧
      (subdivision_step P P' knots p point s).u_left
        ≤ (subdivision_step P P' knots p point s).u_right ∧
      (subdivision_step P P' knots p point s).u_right ≤ b ∧
      (subdivision_step P P' knots p point s).u
        = ((subdivision_step P P' knots p point s).u_left
            + (subdivision_step P P' knots p point s).u_right) / 2 := by
  unfold subdivision_step
  simp only
  split_ifs
  all_goals refine ⟨?_, ?_, ?_, ?_⟩ <;> linarith

theorem subdivision_step_u_of_match (P P' : List (Vector3d K)) (knots : List K) (p : ℕ)
    (point : Vector3d K) (s : Subdivision K) (hu : s.u = (s.u_left + s.u_right) / 2)
    (hm : |subdivision_direction P P' knots p point s.u| < good_match_tolerance) :
    (subdivision_step P P' knots p point s).u = s.u ∧
      (subdivision_step P P' knots p point s).u_left = s.u_left ∧
      (subdivision_step P P' knots p point s).u_right = s.u_right := by
  unfold subdivision_direction at hm
  unfold subdivision_step
  simp only [if_pos hm]
  refine ⟨?_, ?_, ?_⟩ <;> first | trivial | linarith

theorem subdivision_loop_iterate (P P' : List (Vector3d K)) (knots : List K) (p : ℕ)
    (point : Vector3d K) (n : ℕ) (s : Subdivision K) :
    ∃ k, k ≤ n ∧
      subdivision_loop P P' knots p point n s = (subdivision_step P P' knots p point)^[k] s ∧
      (∀ j, j < k → ((subdivision_step P P' knots p point)^[j] s).good_match = false) ∧
      (k < n → ((subdivision_step P P' knots p point)^[k] s).good_match = true) := by
  induction n generalizing s with
  | zero =>
    exact ⟨0, le_refl _, rfl, fun j hj => absurd hj (Nat.not_lt_zero j),
      fun h => absurd h (lt_irrefl _)⟩
  | succ n ih =>
    by_cases hg : s.good_match = true
    · refine ⟨0, Nat.zero_le _, ?_, fun j hj => absurd hj (Nat.not_lt_zero j), fun _ => hg⟩
      rw [subdivision_loop, if_pos hg]
      rfl
    · obtain ⟨k, hk, hloop, hfalse, htrue⟩ := ih (subdivision_step P P' knots p point s)
      refine ⟨k + 1, by omega, ?_, ?_, ?_⟩
      · rw [Function.iterate_succ_apply, ← hloop, subdivision_loop, if_neg hg]
      · intro j hj
        cases j with
        | zero => simpa using hg
        | succ j =>
          rw [Function.iterate_succ_apply]
          exact hfalse j (by omega)
      · intro h
        rw [Function.iterate_succ_apply]
        exact htrue (by omega)

theorem subdivision_state_zero (p : ℕ) (hit : Bool) (input : List (Vector3d K))
    (point : Vector3d K) (s : ℕ) :
    subdivision_state p hit input point s 0
      = subdivision_start (knot_vector input.length p hit) p
          ((knot_vector input.length p hit : List K).getD (p + s) 0 + 1 / 2) :=
  rfl

theorem subdivision_state_succ (p : ℕ) (hit : Bool) (input : List (Vector3d K))
    (point : Vector3d K) (s j : ℕ) :
    subdivision_state p hit input point s (j + 1)
      = subdivision_step input (derive input (knot_vector input.length p hit) 0 p)
          (knot_vector input.length p hit) p point (subdivision_state p hit input point s j) :=
  Function.iterate_succ_apply' _ _ _

theorem subdivision_state_bounds (p : ℕ) (hit : Bool) (input : List (Vector3d K))
    (point : Vector3d K) (hN : p + 1 ≤ input.length) (s : ℕ) (hs : s < input.length - p)
    (j : ℕ) :
    (knot_vector input.length p hit : List K).getD (p + s) 0
        ≤ (subdivision_state p hit input point s j).u_left ∧
      (subdivision_state p hit input point s j).u_left
        ≤ (subdivision_state p hit input point s j).u_right ∧
      (subdivision_state p hit input point s j).u_right
        ≤ (knot_vector input.length p hit : List K).getD (p + s + 1) 0 ∧
      (subdivision_state p hit input point s j).u
        = ((subdivision_state p hit input point s j).u_left
            + (subdivision_state p hit input point s j).u_right) / 2 := by
  have hd := knot_delta (K := K) input.length p hit hN
  have hsp := knot_spacing (K := K) input.length p hit hN s hs
  induction j with
  | zero =>
    rw [subdivision_state_zero]
    simp only [subdivision_start, hd]
    refine ⟨?_, ?_, ?_, ?_⟩ <;> linarith
  | succ j ih =>
    rw [subdivision_state_succ]
    exact subdivision_step_bounds _ _ _ _ _ _ _ _ ih.1 ih.2.1 ih.2.2.1 ih.2.2.2

variable [FloorRing K]

/-- C21: for every valid input with degree above 2, a query point and every segment
`s < N - degree` (segment index `degree + s`), the subdivision loop passes through its
body `k ≤ 10` times; it stops before the tenth pass only with `good_match` set.  Before
the first pass and after each pass the variables satisfy `knot[degree+s] ≤ u_left ≤ u ≤
u_right ≤ knot[degree+s+1]` and `u = (u_left + u_right) / 2`.  The parameter recorded for
the segment is the `u` after the last pass, so it lies inside the segment, and the
recorded distance is the distance from the query point to the curve point there.  When
`good_match` is set at the end, the recorded `u` is the parameter used in the last pass,
at which `|tangent · (query - position)| < 0.0001` was found. -/
theorem subdivision_loop_invariant (sqrt : K → K) (p N : ℕ) (hit : Bool)
    (input : List (Vector3d K)) (point : Vector3d K) (hp : 2 < p) (hN : p + 1 ≤ N)
    (hlen : input.length = N) (s : ℕ) (hs : s < N - p) :
    segment_index (knot_vector N p hit)
        p ((initial_guess sqrt input (knot_vector N p hit) p point).getD s (0, 0)).1 = p + s ∧
    ∃ k, k ≤ 10 ∧
      subdivision_loop input (derive input (knot_vector N p hit) 0 p) (knot_vector N p hit) p
          point 10
          (subdivision_start (knot_vector N p hit) p
            ((initial_guess sqrt input (knot_vector N p hit) p point).getD s (0, 0)).1)
        = subdivision_state p hit input point s k ∧
      (∀ j, j < k → (subdivision_state p hit input point s j).good_match = false) ∧
      (k < 10 → (subdivision_state p hit input point s k).good_match = true) ∧
      (∀ j, j ≤ k →
        (knot_vector N p hit : List K).getD (p + s) 0
            ≤ (subdivision_state p hit input point s j).u_left ∧
          (subdivision_state p hit input point s j).u_left
            ≤ (subdivision_state p hit input point s j).u ∧
          (subdivision_state p hit input point s j).u
            ≤ (subdivision_state p hit input point s j).u_right ∧
          (subdivision_state p hit input point s j).u_right
            ≤ (knot_vector N p hit : List K).getD (p + s + 1) 0 ∧
          (subdivision_state p hit input point s j).u
            = ((subdivision_state p hit input point s j).u_left
                + (subdivision_state p hit input point s j).u_right) / 2) ∧
      (final_candidates sqrt input (knot_vector N p hit) p point).map
          (fun distances => distances.getD s (0, 0))
        = some ((subdivision_state p hit input point s k).u,
            norm sqrt (point - compute_point input (knot_vector N p hit) 0 p
              (subdivision_state p hit input point s k).u)) ∧
      (knot_vector N p hit : List K).getD (p + s) 0
        ≤ (subdivision_state p hit input point s k).u ∧
      (subdivision_state p hit input point s k).u
        ≤ (knot_vector N p hit : List K).getD (p + s + 1) 0 ∧
      ((subdivision_state p hit input point s k).good_match = true →
        ∃ j, j + 1 = k ∧
          (subdivision_state p hit input point s j).good_match = false ∧
          (subdivision_state p hit input point s j).u
            = (subdivision_state p hit input point s k).u ∧
          |dot (compute_point (derive input (knot_vector N p hit) 0 p) (knot_vector N p hit) 1
                (p - 1) (subdivision_state p hit input point s j).u)
              (point - compute_point input (knot_vector N p hit) 0 p
                (subdivision_state p hit input point s j).u)| < good_match_tolerance) := by
  subst hlen
  have hseed := initial_guess_getD sqrt input (knot_vector input.length p hit) p point s hs
  have hfirst : ((initial_guess sqrt input (knot_vector input.length p hit) p point).getD s
      (0, 0)).1 = (knot_vector input.length p hit : List K).getD (p + s) 0 + 1 / 2 := by
    rw [hseed]
  have hb := subdivision_state_bounds (K := K) p hit input point hN s hs
  obtain ⟨k, hk, hloop, hfalse, htrue⟩ := subdivision_loop_iterate input
    (derive input (knot_vector input.length p hit) 0 p) (knot_vector input.length p hit) p point
    10 (subdivision_start (knot_vector input.length p hit) p
      ((knot_vector input.length p hit : List K).getD (p + s) 0 + 1 / 2))
  have hmid : ∀ j,
      (subdivision_state p hit input point s j).u_left
          ≤ (subdivision_state p hit input point s j).u ∧
        (subdivision_state p hit input point s j).u
          ≤ (subdivision_state p hit input point s j).u_right := by
    intro j
    obtain ⟨_, h2, _, h4⟩ := hb j
    constructor <;> linarith
  refine ⟨?_, k, hk, ?_, hfalse, htrue, ?_, ?_, ?_, ?_, ?_⟩
  · rw [hfirst]
    exact segment_index_seed input.length p hit hN s hs
  · rw [hfirst]
    exact hloop
  · intro j _
    exact ⟨(hb j).1, (hmid j).1, (hmid j).2, (hb j).2.2.1, (hb j).2.2.2⟩
  · rw [final_candidates_of_gt_two sqrt input _ p point hp, Option.map_some',
      getD_map_of_lt _ _ s (0, 0) (0, 0) (by rw [initial_guess_length]; exact hs),
      refine_subdivision_eq, hfirst, hloop]
    rfl
  · exact le_trans (hb k).1 (hmid k).1
  · exact le_trans (hmid k).2 (hb k).2.2.1
  · intro hg
    cases k with
    | zero =>
      rw [subdivision_state_zero] at hg
      exact absurd hg (by simp [subdivision_start])
    | succ k =>
      have hprev := hfalse k (Nat.lt_succ_self k)
      have hprev2 : (subdivision_state p hit input point s k).good_match = false := hprev
      rw [subdivision_state_succ, subdivision_step_good_match] at hg
      have hm : |subdivision_direction input (derive input (knot_vector input.length p hit) 0 p)
          (knot_vector input.length p hit) p point (subdivision_state p hit input point s k).u|
          < good_match_tolerance := by
        rcases hg with h | h
        · exact h
        · rw [hprev2] at h
          exact absurd h (by decide)
      refine ⟨k, rfl, hprev2, ?_, hm⟩
      rw [subdivision_state_succ]
      exact (subdivision_step_u_of_match _ _ _ _ _ _ (hb k).2.2.2 hm).1.symm

/-- Witness of C21: the arch (-1,0,0), (-1,1,0), (1,1,0), (1,0,0) of degree 3 with
clamped ends, whose single segment is `[0, 1]`.  For the query point (0, -3/4, 0) the
first pass finds a good match at `u = 1/2` and the loop stops there; for the query
point (1, 2, 0) no pass finds one and after ten passes `u = 1371/2048`. -/
theorem subdivision_loop_invariant_witness :
    2 < 3 ∧ 3 + 1 ≤ 4 ∧ 0 < 4 - 3 ∧
      (∃ k, k ≤ 10 ∧
        (k < 10 → (subdivision_state 3 true
          [((-1 : ℚ), (0 : ℚ), (0 : ℚ)), (-1, 1, 0), (1, 1, 0), (1, 0, 0)] (0, -3 / 4, 0)
          0 k).good_match = true) ∧
        (final_candidates Rat.sqrt [((-1 : ℚ), (0 : ℚ), (0 : ℚ)), (-1, 1, 0), (1, 1, 0), (1, 0, 0)]
            (knot_vector 4 3 true) 3 (0, -3 / 4, 0)).map
            (fun distances => distances.getD 0 (0, 0))
          = some ((subdivision_state 3 true
                [((-1 : ℚ), (0 : ℚ), (0 : ℚ)), (-1, 1, 0), (1, 1, 0), (1, 0, 0)] (0, -3 / 4, 0)
                0 k).u,
              norm Rat.sqrt ((0, -3 / 4, 0)
                - compute_point [((-1 : ℚ), (0 : ℚ), (0 : ℚ)), (-1, 1, 0), (1, 1, 0), (1, 0, 0)]
                    (knot_vector 4 3 true) 0 3
                    (subdivision_state 3 true
                      [((-1 : ℚ), (0 : ℚ), (0 : ℚ)), (-1, 1, 0), (1, 1, 0), (1, 0, 0)]
                      (0, -3 / 4, 0) 0 k).u)) ∧
        (knot_vector 4 3 true : List ℚ).getD (3 + 0) 0
          ≤ (subdivision_state 3 true
              [((-1 : ℚ), (0 : ℚ), (0 : ℚ)), (-1, 1, 0), (1, 1, 0), (1, 0, 0)] (0, -3 / 4, 0)
              0 k).u ∧
        (subdivision_state 3 true
            [((-1 : ℚ), (0 : ℚ), (0 : ℚ)), (-1, 1, 0), (1, 1, 0), (1, 0, 0)] (0, -3 / 4, 0)
            0 k).u ≤ (knot_vector 4 3 true : List ℚ).getD (3 + 0 + 1) 0) ∧
      (knot_vector 4 3 true : List ℚ) = [0, 0, 0, 0, 1, 1, 1, 1] ∧
      (subdivision_state 3 true
          [((-1 : ℚ), (0 : ℚ), (0 : ℚ)), (-1, 1, 0), (1, 1, 0), (1, 0, 0)] (0, -3 / 4, 0) 0 1).u
        = 1 / 2 ∧
      (subdivision_state 3 true
          [((-1 : ℚ), (0 : ℚ), (0 : ℚ)), (-1, 1, 0), (1, 1, 0), (1, 0, 0)] (0, -3 / 4, 0) 0
          1).good_match = true ∧
      final_candidates Rat.sqrt [((-1 : ℚ), (0 : ℚ), (0 : ℚ)), (-1, 1, 0), (1, 1, 0), (1, 0, 0)]
          (knot_vector 4 3 true) 3 (0, -3 / 4, 0) = some [(1 / 2, 3 / 2)] ∧
      (subdivision_state 3 true
          [((-1 : ℚ), (0 : ℚ), (0 : ℚ)), (-1, 1, 0), (1, 1, 0), (1, 0, 0)] (1, 2, 0) 0 10).u
        = 1371 / 2048 ∧
      (subdivision_state 3 true
          [((-1 : ℚ), (0 : ℚ), (0 : ℚ)), (-1, 1, 0), (1, 1, 0), (1, 0, 0)] (1, 2, 0) 0
          10).u_left = 685 / 1024 ∧
      (subdivision_state 3 true
          [((-1 : ℚ), (0 : ℚ), (0 : ℚ)), (-1, 1, 0), (1, 1, 0), (1, 0, 0)] (1, 2, 0) 0
          10).u_right = 343 / 512 ∧
      (subdivision_state 3 true
          [((-1 : ℚ), (0 : ℚ), (0 : ℚ)), (-1, 1, 0), (1, 1, 0), (1, 0, 0)] (1, 2, 0) 0
          10).good_match = false :=
  let ⟨_, k, hk, _, _, htrue, _, hcand, hl, hr, _⟩ :=
    subdivision_loop_invariant Rat.sqrt 3 4 true
      [((-1 : ℚ), (0 : ℚ), (0 : ℚ)), (-1, 1, 0), (1, 1, 0), (1, 0, 0)] (0, -3 / 4, 0)
      (by decide) (by decide) rfl 0 (by decide)
  ⟨by decide, by decide, by decide, ⟨k, hk, htrue, hcand, hl, hr⟩, by decide!, by decide!,
    by decide!, by decide!, by decide!, by decide!, by decide!, by decide!⟩

end SubdivisionLoop

/-! ## The closest-point search for degree 1 -/

section DegreeOne

variable {K : Type} [LinearOrderedField K] [FloorRing K]

theorem final_candidates_degree_one (sqrt : K → K) (P : List (Vector3d K)) (knots : List K)
    (point : Vector3d K) :
    final_candidates sqrt P knots 1 point = some (initial_guess sqrt P knots 1 point) := by
  unfold final_candidates
  rw [if_neg (by decide), if_neg (by decide)]

/-- C22: for degree 1 and every valid input (at least two de Boor points) with a query
point, the candidates handed to the final selection are the seeds themselves, no
refinement is performed.  The reported parameter is `knot[1+s] + 0.5` for a segment
`s < N - 1`, the midpoint of `[knot[1+s], knot[1+s+1]]`; the reported distance is the
distance of seed `s`, the distance from the query point to the curve point at that
parameter, and it is at most the distance of every seed (the first seed of smallest
distance is the one reported). -/
theorem degree_one_reports_best_seed (sqrt : K → K) (N : ℕ) (hit : Bool)
    (input : List (Vector3d K)) (point : Vector3d K) (hN : 2 ≤ N) (hlen : input.length = N) :
    final_candidates sqrt input (knot_vector N 1 hit) 1 point
        = some (initial_guess sqrt input (knot_vector N 1 hit) 1 point) ∧
      (initial_guess sqrt input (knot_vector N 1 hit) 1 point).length = N - 1 ∧
      (∀ j, j < N - 1 →
        (initial_guess sqrt input (knot_vector N 1 hit) 1 point).getD j (0, 0)
          = ((knot_vector N 1 hit : List K).getD (1 + j) 0 + 1 / 2,
              norm sqrt (point - compute_point input (knot_vector N 1 hit) 0 1
                ((knot_vector N 1 hit : List K).getD (1 + j) 0 + 1 / 2)))) ∧
      ∃ s, s < N - 1 ∧
        closest_point sqrt 1 hit input point
          = some ((knot_vector N 1 hit : List K).getD (1 + s) 0 + 1 / 2,
              ((initial_guess sqrt input (knot_vector N 1 hit) 1 point).getD s (0, 0)).2,
              compute_point input (knot_vector N 1 hit) 0 1
                ((knot_vector N 1 hit : List K).getD (1 + s) 0 + 1 / 2)) ∧
        (knot_vector N 1 hit : List K).getD (1 + s) 0 + 1 / 2
          = ((knot_vector N 1 hit : List K).getD (1 + s) 0
              + (knot_vector N 1 hit : List K).getD (1 + s + 1) 0) / 2 ∧
        (∀ j, j < N - 1 →
          ((initial_guess sqrt input (knot_vector N 1 hit) 1 point).getD s (0, 0)).2
            ≤ ((initial_guess sqrt input (knot_vector N 1 hit) 1 point).getD j (0, 0)).2) ∧
        (∀ j, j < s →
          ((initial_guess sqrt input (knot_vector N 1 hit) 1 point).getD s (0, 0)).2
            < ((initial_guess sqrt input (knot_vector N 1 hit) 1 point).getD j (0, 0)).2) := by
  subst hlen
  have hd := knot_delta (K := K) input.length 1 hit (by omega)
  have hlen2 := initial_guess_length sqrt input (knot_vector input.length 1 hit) 1 point
  have hg : ∀ j, j < input.length - 1 →
      (initial_guess sqrt input (knot_vector input.length 1 hit) 1 point).getD j (0, 0)
        = ((knot_vector input.length 1 hit : List K).getD (1 + j) 0 + 1 / 2,
            norm sqrt (point - compute_point input (knot_vector input.length 1 hit) 0 1
              ((knot_vector input.length 1 hit : List K).getD (1 + j) 0 + 1 / 2))) := by
    intro j hj
    rw [initial_guess_getD sqrt input _ 1 point j hj, hd, mul_one]
  have hne : initial_guess sqrt input (knot_vector input.length 1 hit) 1 point ≠ [] := by
    intro h
    rw [h] at hlen2
    simp at hlen2
    omega
  obtain ⟨k, hk, hcp, hle, hlt⟩ := closest_point_of_candidates sqrt 1 hit input point _
    (final_candidates_degree_one sqrt input _ point) hne
  rw [hlen2] at hk hle
  refine ⟨final_candidates_degree_one sqrt input _ point, hlen2, hg, k, hk, ?_, ?_, hle, hlt⟩
  · rw [hcp]
    congr 2
    · rw [hg k hk]
    · congr 1
      rw [hg k hk]
  · have hsp := knot_spacing (K := K) input.length 1 hit (by omega) k hk
    linear_combination (-1 / 2 : K) * hsp

/-- Witness of C22: the polyline (0,0,0), (2,0,0), (4,0,0) of degree 1 and the query
point (1, 3/2, 0).  With clamped ends the seeds are 1/2 and 3/2 with the distances 3/2
and 5/2, and the first seed is reported. -/
theorem degree_one_reports_best_seed_witness :
    2 ≤ 3 ∧
      final_candidates Rat.sqrt [((0 : ℚ), (0 : ℚ), (0 : ℚ)), (2, 0, 0), (4, 0, 0)]
          (knot_vector 3 1 true) 1 (1, 3 / 2, 0)
        = some (initial_guess Rat.sqrt [((0 : ℚ), (0 : ℚ), (0 : ℚ)), (2, 0, 0), (4, 0, 0)]
            (knot_vector 3 1 true) 1 (1, 3 / 2, 0)) ∧
      (knot_vector 3 1 true : List ℚ) = [0, 0, 1, 2, 2] ∧
      initial_guess Rat.sqrt [((0 : ℚ), (0 : ℚ), (0 : ℚ)), (2, 0, 0), (4, 0, 0)]
          (knot_vector 3 1 true) 1 (1, 3 / 2, 0) = [(1 / 2, 3 / 2), (3 / 2, 5 / 2)] ∧
      closest_point Rat.sqrt 1 true [((0 : ℚ), (0 : ℚ), (0 : ℚ)), (2, 0, 0), (4, 0, 0)]
          (1, 3 / 2, 0) = some (1 / 2, 3 / 2, (1, 0, 0)) :=
  ⟨by decide,
    (degree_one_reports_best_seed Rat.sqrt 3 true
      [((0 : ℚ), (0 : ℚ), (0 : ℚ)), (2, 0, 0), (4, 0, 0)] (1, 3 / 2, 0) (by decide) rfl).1,
    by decide!, by decide!, by decide!⟩

end DegreeOne

end BSpline
